import Mathlib

/-!
Verification of the tulis note editor's core subsystems, shallowly embedded
from the TypeScript sources:

* `src/lib/editor/codeFormat.ts` (with its `codeLowlight` companion) — code
  language detection, the auto-correct policy and the formatter adapter;
* `src/app/notes/[id]/NoteClient.tsx` — the dirty/saved version counters,
  debounced save scheduling, the remote-snapshot reconciliation decision and
  the completed-task stripper;
* `src/editor/TagChip.ts` — the `#word` input rule over a ProseMirror-style
  inline position model;
* the abbreviation expansion extension (`AbbrevExpand`).

External collaborators (the JSON parser of the host platform, the
highlight.js relevance engine, the prettier / sql-formatter backends and the
document store's write outcome) are modelled as explicit function
parameters; everything that is repository code is translated directly from
the source.
-/

namespace Tulis

/-! ## JavaScript string primitives

The TypeScript sources use `String.prototype.trim`, `toLowerCase` and
regular expressions.  We model strings through their character lists so
that all operations compute by kernel reduction.
-/

/-- Character class removed by `String.prototype.trim` (and the regex class
`\s`), modelled by `Char.isWhitespace`. -/
def jsWhitespaceChar (c : Char) : Bool := c.isWhitespace

/-- Remove leading and trailing whitespace from a character list, the
semantics of `String.prototype.trim`. -/
def trimChars (l : List Char) : List Char :=
  (l.dropWhile jsWhitespaceChar).rdropWhile jsWhitespaceChar

/-- JavaScript `String.prototype.trim`. -/
def jsTrim (s : String) : String := ⟨trimChars s.data⟩

/-- JavaScript `String.prototype.toLowerCase` (ASCII case folding). -/
def jsLower (s : String) : String := ⟨s.data.map Char.toLower⟩

/-- Word characters of the JavaScript regex class `\w` = `[A-Za-z0-9_]`. -/
def isWordChar (c : Char) : Bool := c.isAlphanum || c = '_'

theorem trimChars_head_not (l : List Char) (h : 0 < (trimChars l).length) :
    jsWhitespaceChar ((trimChars l).get ⟨0, h⟩) = false := by
  unfold trimChars at h ⊢
  have hpre := List.rdropWhile_prefix jsWhitespaceChar (l.dropWhile jsWhitespaceChar)
  have hlen : 0 < (l.dropWhile jsWhitespaceChar).length :=
    Nat.lt_of_lt_of_le h hpre.length_le
  have hzero := List.dropWhile_get_zero_not jsWhitespaceChar l hlen
  have hget := hpre.getElem h
  simp only [List.get_eq_getElem] at hzero ⊢
  rw [← hget] at hzero
  simpa using hzero

theorem trimChars_idem (l : List Char) : trimChars (trimChars l) = trimChars l := by
  have hdrop : (trimChars l).dropWhile jsWhitespaceChar = trimChars l := by
    rw [List.dropWhile_eq_self_iff]
    intro hl
    simpa using trimChars_head_not l hl
  unfold trimChars
  rw [show trimChars l = (l.dropWhile jsWhitespaceChar).rdropWhile jsWhitespaceChar from rfl] at hdrop
  rw [hdrop]
  exact List.rdropWhile_idempotent _ _

theorem jsTrim_idem (s : String) : jsTrim (jsTrim s) = jsTrim s := by
  simp [jsTrim, trimChars_idem]

/-! ## The tiptap `JSONContent` document tree

`JSONContent` (from `@tiptap/core`) is the JSON shape of a document node:
an optional `type`, an optional `attrs` record, an optional `content` array
of child nodes and an optional `text`.  Attribute values occurring in this
app are booleans (`checked`), numbers (`level`) and strings (`color`,
`date`).  `marks` and further ad-hoc keys are not touched by any of the
code under verification and are omitted from the model.
-/

/-- Attribute values of document nodes (`attrs` record entries). -/
inductive AttrValue where
  | b (v : Bool)
  | n (v : Int)
  | s (v : String)
deriving DecidableEq, Repr

/-- The tiptap `JSONContent` tree. -/
inductive JSONContent where
  | mk (type : Option String) (attrs : Option (List (String × AttrValue)))
       (content : Option (List JSONContent)) (text : Option String)

/-- Projection of the `type` field. -/
def JSONContent.type : JSONContent → Option String
  | .mk t _ _ _ => t

/-- Projection of the `attrs` field. -/
def JSONContent.attrs : JSONContent → Option (List (String × AttrValue))
  | .mk _ a _ _ => a

/-- Projection of the `content` field (`none` models an absent `content`
key, for which `Array.isArray(node.content)` is false). -/
def JSONContent.content : JSONContent → Option (List JSONContent)
  | .mk _ _ c _ => c

/-- Projection of the `text` field. -/
def JSONContent.text : JSONContent → Option String
  | .mk _ _ _ x => x

/-- Lookup of `node.attrs?.checked === true`: the `attrs` record exists and
maps `"checked"` to the boolean `true`. -/
def JSONContent.checkedAttr (node : JSONContent) : Bool :=
  match node.attrs with
  | none => false
  | some fields => decide (fields.lookup "checked" = some (.b true))

/-- The test `child.type === 'taskItem' && child.attrs?.checked === true`
of `stripCompletedTasksFromNode` (NoteClient.tsx line 110). -/
def JSONContent.isCheckedTaskItem (node : JSONContent) : Bool :=
  decide (node.type = some "taskItem") && node.checkedAttr

mutual

/-- Deep structural equality of document trees, the specialisation of
`deepEqualJsonValue` (NoteClient.tsx lines 66-92) to `JSONContent` values:
two nodes are equal when all four fields agree, recursively. -/
def deepEqualNode : JSONContent → JSONContent → Bool
  | .mk t1 a1 c1 x1, .mk t2 a2 c2 x2 =>
    decide (t1 = t2) && decide (a1 = a2) && decide (x1 = x2) &&
      match c1, c2 with
      | none, none => true
      | some l1, some l2 => deepEqualList l1 l2
      | _, _ => false

/-- Deep equality of child arrays: equal lengths, equal elements in order. -/
def deepEqualList : List JSONContent → List JSONContent → Bool
  | [], [] => true
  | a :: as1, b :: bs => deepEqualNode a b && deepEqualList as1 bs
  | _, _ => false

end

/-- `isEquivalentEditorContent` (NoteClient.tsx lines 94-96). -/
def isEquivalentEditorContent (a b : JSONContent) : Bool := deepEqualNode a b

mutual

theorem deepEqualNode_refl (a : JSONContent) : deepEqualNode a a = true := by
  cases a with
  | mk t as2 c x =>
    cases c with
    | none => simp [deepEqualNode]
    | some l => simp [deepEqualNode, deepEqualList_refl l]

theorem deepEqualList_refl (l : List JSONContent) : deepEqualList l l = true := by
  cases l with
  | nil => rfl
  | cons a rest => simp [deepEqualList, deepEqualNode_refl a, deepEqualList_refl rest]

end

theorem ne_of_deepEqualNode_eq_false {a b : JSONContent} (h : deepEqualNode a b = false) :
    a ≠ b := by
  intro hab
  rw [hab, deepEqualNode_refl] at h
  exact Bool.true_eq_false.mp h

/-! ## Completed-task stripping (NoteClient.tsx lines 98-154)

`stripCompletedTasksFromNode` walks a node's children, drops every child
that is a checked `taskItem` (without descending into it), recurses into
the remaining children, drops any `taskList` whose processed child list is
empty, and reports how many checked task items it dropped.  The source
returns the identical object when nothing changed; the model returns the
`changed` flag alongside (reference equality `result.node !== child` of
the source corresponds exactly to that flag being set).
-/

mutual

/-- `stripCompletedTasksFromNode`: returns the replacement node (`none`
when the node is removed), the number of checked task items removed below
it and whether anything changed. -/
def stripCompletedTasksFromNode : JSONContent → Option JSONContent × Nat × Bool
  | .mk t a none x => (some (.mk t a none x), 0, false)
  | .mk t a (some children) x =>
    let res := stripCompletedTasksFromChildren children
    if decide (t = some "taskList") && res.1.isEmpty then
      (none, res.2.1, true)
    else if res.2.2 then
      (some (.mk t a (some res.1) x), res.2.1, true)
    else
      (some (.mk t a (some children) x), res.2.1, false)

/-- The `for (const child of children)` loop body of
`stripCompletedTasksFromNode`: returns the surviving children in order,
the total removed count and the `changed` flag. -/
def stripCompletedTasksFromChildren : List JSONContent → List JSONContent × Nat × Bool
  | [] => ([], 0, false)
  | child :: rest =>
    if child.isCheckedTaskItem then
      let tl := stripCompletedTasksFromChildren rest
      (tl.1, tl.2.1 + 1, true)
    else
      let hd := stripCompletedTasksFromNode child
      let tl := stripCompletedTasksFromChildren rest
      match hd.1 with
      | none => (tl.1, hd.2.1 + tl.2.1, true)
      | some n => (n :: tl.1, hd.2.1 + tl.2.1, hd.2.2 || tl.2.2)

end

/-- The empty document `{ type: 'doc', content: [] }`. -/
def emptyDocNode : JSONContent := .mk (some "doc") none (some []) none

/-- `stripCompletedTasksFromDoc` (NoteClient.tsx lines 148-154). -/
def stripCompletedTasksFromDoc (doc : JSONContent) : JSONContent × Nat :=
  let res := stripCompletedTasksFromNode doc
  match res.1 with
  | none => (emptyDocNode, res.2.1)
  | some node =>
    if node.type = some "doc" then (node, res.2.1) else (emptyDocNode, res.2.1)

/-! Specification-side predicates used to state claims about the stripper. -/

/-- Whether a node is a `taskList` whose `content` is the empty array. -/
def JSONContent.isEmptyTaskList : JSONContent → Bool
  | .mk t _ (some []) _ => decide (t = some "taskList")
  | _ => false

mutual

/-- Whether a checked `taskItem` occurs anywhere in the tree. -/
def containsCheckedTaskItem : JSONContent → Bool
  | .mk t a c x =>
    (JSONContent.mk t a c x).isCheckedTaskItem ||
      match c with
      | none => false
      | some l => containsCheckedList l

/-- Whether a checked `taskItem` occurs anywhere in a list of trees. -/
def containsCheckedList : List JSONContent → Bool
  | [] => false
  | child :: rest => containsCheckedTaskItem child || containsCheckedList rest

end

mutual

/-- Whether an empty `taskList` occurs anywhere in the tree. -/
def containsEmptyTaskList : JSONContent → Bool
  | .mk t a c x =>
    (JSONContent.mk t a c x).isEmptyTaskList ||
      match c with
      | none => false
      | some l => containsEmptyTaskListIn l

/-- Whether an empty `taskList` occurs anywhere in a list of trees. -/
def containsEmptyTaskListIn : List JSONContent → Bool
  | [] => false
  | child :: rest => containsEmptyTaskList child || containsEmptyTaskListIn rest

end

mutual

/-- Total number of checked `taskItem` nodes in the tree. -/
def countCheckedTotal : JSONContent → Nat
  | .mk t a c x =>
    (if (JSONContent.mk t a c x).isCheckedTaskItem then 1 else 0) +
      match c with
      | none => 0
      | some l => countCheckedTotalList l

/-- Total number of checked `taskItem` nodes in a list of trees. -/
def countCheckedTotalList : List JSONContent → Nat
  | [] => 0
  | child :: rest => countCheckedTotal child + countCheckedTotalList rest

end

mutual

/-- Number of outermost checked `taskItem` nodes: checked task items that
are not nested inside another checked task item. -/
def countOutermostChecked : JSONContent → Nat
  | .mk t a c x =>
    if (JSONContent.mk t a c x).isCheckedTaskItem then 1
    else
      match c with
      | none => 0
      | some l => countOutermostCheckedList l

/-- Number of outermost checked `taskItem` nodes in a list of trees. -/
def countOutermostCheckedList : List JSONContent → Nat
  | [] => 0
  | child :: rest => countOutermostChecked child + countOutermostCheckedList rest

end

mutual

/-- Preorder traversal of the node types of a tree, used to state that
surviving nodes keep their relative order. -/
def preorderTypes : JSONContent → List (Option String)
  | .mk t _ c _ =>
    t ::
      match c with
      | none => []
      | some l => preorderTypesList l

/-- Preorder traversal of the node types of a list of trees. -/
def preorderTypesList : List JSONContent → List (Option String)
  | [] => []
  | child :: rest => preorderTypes child ++ preorderTypesList rest

end

theorem stripNode_type {n m : JSONContent}
    (h : (stripCompletedTasksFromNode n).1 = some m) : m.type = n.type := by
  cases n with
  | mk t a c x =>
    cases c with
    | none =>
      simp only [stripCompletedTasksFromNode, Option.some.injEq] at h
      rw [← h]
    | some children =>
      simp only [stripCompletedTasksFromNode] at h
      split at h
      · simp at h
      · split at h
        · simp only [Option.some.injEq] at h
          rw [← h]
          rfl
        · simp only [Option.some.injEq] at h
          rw [← h]

mutual

theorem stripNode_not_changed (n : JSONContent)
    (h : (stripCompletedTasksFromNode n).2.2 = false) :
    stripCompletedTasksFromNode n = (some n, 0, false) := by
  cases n with
  | mk t a c x =>
    cases c with
    | none => rfl
    | some children =>
      rcases hE : stripCompletedTasksFromChildren children with ⟨next, cnt, ch⟩
      simp only [stripCompletedTasksFromNode, hE] at h ⊢
      split at h
      · simp at h
      · split at h
        · simp at h
        · have hc := stripChildren_not_changed children
          rw [hE] at hc
          have hch : ch = false := by
            rename_i hcond hchf
            simpa using hchf
          have := hc (by simpa using hch)
          obtain ⟨h1, h2, h3⟩ := Prod.mk.injEq .. ▸ this
          simp_all

theorem stripChildren_not_changed (l : List JSONContent)
    (h : (stripCompletedTasksFromChildren l).2.2 = false) :
    stripCompletedTasksFromChildren l = (l, 0, false) := by
  cases l with
  | nil => rfl
  | cons child rest =>
    rcases hHd : stripCompletedTasksFromNode child with ⟨nodeOpt, hc, hch⟩
    rcases hTl : stripCompletedTasksFromChildren rest with ⟨next, tc, tch⟩
    simp only [stripCompletedTasksFromChildren, hHd, hTl] at h ⊢
    split at h
    · simp at h
    · cases nodeOpt with
      | none => simp at h
      | some n2 =>
        simp only at h
        have hboth := Bool.or_eq_false_iff.mp h
        have hN := stripNode_not_changed child
        rw [hHd] at hN
        have hN2 := hN (by simpa using hboth.1)
        have hT := stripChildren_not_changed rest
        rw [hTl] at hT
        have hT2 := hT (by simpa using hboth.2)
        simp_all

end

theorem containsCheckedList_eq_false_iff (l : List JSONContent) :
    containsCheckedList l = false ↔ ∀ c ∈ l, containsCheckedTaskItem c = false := by
  induction l with
  | nil => simp [containsCheckedList]
  | cons child rest ih => simp [containsCheckedList, ih]

theorem containsEmptyTaskListIn_eq_false_iff (l : List JSONContent) :
    containsEmptyTaskListIn l = false ↔ ∀ c ∈ l, containsEmptyTaskList c = false := by
  induction l with
  | nil => simp [containsEmptyTaskListIn]
  | cons child rest ih => simp [containsEmptyTaskListIn, ih]

mutual

theorem stripNode_clean (n : JSONContent) :
    ∀ m, (stripCompletedTasksFromNode n).1 = some m →
      containsCheckedTaskItem m = n.isCheckedTaskItem ∧ containsEmptyTaskList m = false := by
  cases n with
  | mk t a c x =>
    intro m h
    cases c with
    | none =>
      simp only [stripCompletedTasksFromNode, Option.some.injEq] at h
      subst h
      constructor
      · simp [containsCheckedTaskItem]
      · simp [containsEmptyTaskList, JSONContent.isEmptyTaskList]
    | some children =>
      have hlist := stripChildren_clean children
      rcases hE : stripCompletedTasksFromChildren children with ⟨next, cnt, ch⟩
      rw [hE] at hlist
      simp only [stripCompletedTasksFromNode, hE] at h
      split at h
      · simp at h
      · rename_i hcond
        have hnext : containsCheckedList next = false :=
          (containsCheckedList_eq_false_iff next).mpr fun c hc => (hlist c hc).1
        have hnextE : containsEmptyTaskListIn next = false :=
          (containsEmptyTaskListIn_eq_false_iff next).mpr fun c hc => (hlist c hc).2
        split at h
        · simp only [Option.some.injEq] at h
          subst h
          constructor
          · simp only [containsCheckedTaskItem, hnext, Bool.or_false]
            rfl
          · simp only [containsEmptyTaskList, Bool.or_eq_false_iff]
            refine ⟨?_, by simpa using hnextE⟩
            cases hn : next with
            | nil => simp [hn, List.isEmpty] at hcond; simp [JSONContent.isEmptyTaskList, hcond]
            | cons y ys => simp [JSONContent.isEmptyTaskList]
        · rename_i hchf
          have hch : ch = false := by simpa using hchf
          subst hch
          have hun := stripChildren_not_changed children
          rw [hE] at hun
          have heq := hun rfl
          have hnc : next = children := congrArg Prod.fst heq
          simp only [Option.some.injEq] at h
          subst h
          subst hnc
          constructor
          · simp [containsCheckedTaskItem, hnext]
          · simp only [containsEmptyTaskList, Bool.or_eq_false_iff]
            refine ⟨?_, by simpa using hnextE⟩
            cases hn : next with
            | nil => simp [hn, List.isEmpty] at hcond; simp [JSONContent.isEmptyTaskList, hcond]
            | cons y ys => simp [JSONContent.isEmptyTaskList]

theorem stripChildren_clean (l : List JSONContent) :
    ∀ m ∈ (stripCompletedTasksFromChildren l).1,
      containsCheckedTaskItem m = false ∧ containsEmptyTaskList m = false := by
  cases l with
  | nil => intro m hm; simp [stripCompletedTasksFromChildren] at hm
  | cons child rest =>
    intro m hm
    have ihNode := stripNode_clean child
    have ihRest := stripChildren_clean rest
    rcases hHd : stripCompletedTasksFromNode child with ⟨nodeOpt, hc, hch⟩
    rcases hTl : stripCompletedTasksFromChildren rest with ⟨next, tc, tch⟩
    rw [hHd] at ihNode
    rw [hTl] at ihRest
    simp only [stripCompletedTasksFromChildren, hHd, hTl] at hm
    split at hm
    · exact ihRest m hm
    · rename_i hnotChecked
      cases nodeOpt with
      | none => exact ihRest m hm
      | some n2 =>
        simp only [List.mem_cons] at hm
        rcases hm with hm | hm
        · subst hm
          have := ihNode m rfl
          refine ⟨?_, this.2⟩
          rw [this.1]
          have hct : JSONContent.type m = JSONContent.type child := by
            have := stripNode_type (n := child) (m := m)
            rw [hHd] at this
            exact this rfl
          simpa using hnotChecked
        · exact ihRest m hm

end

theorem strip_count_all :
    (∀ n : JSONContent, (stripCompletedTasksFromNode n).2.1 =
      match n.content with
      | none => 0
      | some l => countOutermostCheckedList l) ∧
    (∀ l : List JSONContent,
      (stripCompletedTasksFromChildren l).2.1 = countOutermostCheckedList l) := by
  refine stripCompletedTasksFromNode.mutual_induct
    (fun n => (stripCompletedTasksFromNode n).2.1 =
      match n.content with
      | none => 0
      | some l => countOutermostCheckedList l)
    (fun l => (stripCompletedTasksFromChildren l).2.1 = countOutermostCheckedList l)
    ?_ ?_ ?_ ?_ ?_ ?_ ?_ ?_
  · intro t a x
    rfl
  · intro t a children x res hcond ih
    have hcond2 : (decide (t = some "taskList") &&
        (stripCompletedTasksFromChildren children).1.isEmpty) = true := hcond
    show (stripCompletedTasksFromNode (JSONContent.mk t a (some children) x)).2.1 = _
    simp only [stripCompletedTasksFromNode]
    rw [if_pos hcond2]
    exact ih
  · intro t a children x res hcond hch ih
    have hcond2 : ¬(decide (t = some "taskList") &&
        (stripCompletedTasksFromChildren children).1.isEmpty) = true := hcond
    have hch2 : (stripCompletedTasksFromChildren children).2.2 = true := hch
    show (stripCompletedTasksFromNode (JSONContent.mk t a (some children) x)).2.1 = _
    simp only [stripCompletedTasksFromNode]
    rw [if_neg hcond2, if_pos hch2]
    exact ih
  · intro t a children x res hcond hch ih
    have hcond2 : ¬(decide (t = some "taskList") &&
        (stripCompletedTasksFromChildren children).1.isEmpty) = true := hcond
    have hch2 : ¬(stripCompletedTasksFromChildren children).2.2 = true := hch
    show (stripCompletedTasksFromNode (JSONContent.mk t a (some children) x)).2.1 = _
    simp only [stripCompletedTasksFromNode]
    rw [if_neg hcond2, if_neg hch2]
    exact ih
  · rfl
  · intro child rest hch ihL
    cases child with
    | mk t a c x =>
      have e1 : countOutermostCheckedList (JSONContent.mk t a c x :: rest) =
          countOutermostChecked (JSONContent.mk t a c x) + countOutermostCheckedList rest := by
        simp only [countOutermostCheckedList]
      have e2 : countOutermostChecked (JSONContent.mk t a c x) = 1 := by
        cases c with
        | none =>
          simp only [countOutermostChecked]
          rw [if_pos hch]
        | some l2 =>
          simp only [countOutermostChecked]
          rw [if_pos hch]
      show (stripCompletedTasksFromChildren (JSONContent.mk t a c x :: rest)).2.1 = _
      simp only [stripCompletedTasksFromChildren]
      rw [if_pos hch]
      show (stripCompletedTasksFromChildren rest).2.1 + 1 = _
      rw [ihL, e1, e2]
      exact Nat.add_comm _ 1
  · intro child rest hch hd hnone ihN ihL
    have hnone2 : (stripCompletedTasksFromNode child).1 = none := hnone
    clear hnone
    clear hd
    cases child with
    | mk t a c x =>
      have e1 : countOutermostCheckedList (JSONContent.mk t a c x :: rest) =
          countOutermostChecked (JSONContent.mk t a c x) + countOutermostCheckedList rest := by
        simp only [countOutermostCheckedList]
      have e2 : countOutermostChecked (JSONContent.mk t a c x) =
          match (JSONContent.mk t a c x).content with
          | none => 0
          | some l => countOutermostCheckedList l := by
        cases c with
        | none =>
          simp only [countOutermostChecked, JSONContent.content]
          rw [if_neg hch]
        | some l2 =>
          simp only [countOutermostChecked, JSONContent.content]
          rw [if_neg hch]
      show (stripCompletedTasksFromChildren (JSONContent.mk t a c x :: rest)).2.1 = _
      simp only [stripCompletedTasksFromChildren]
      rw [if_neg hch, hnone2]
      show (stripCompletedTasksFromNode (JSONContent.mk t a c x)).2.1 +
        (stripCompletedTasksFromChildren rest).2.1 = _
      rw [ihN, ihL, e1, e2]
  · intro child rest hch hd n2 hsome ihN ihL
    have hsome2 : (stripCompletedTasksFromNode child).1 = some n2 := hsome
    clear hsome
    clear hd
    cases child with
    | mk t a c x =>
      have e1 : countOutermostCheckedList (JSONContent.mk t a c x :: rest) =
          countOutermostChecked (JSONContent.mk t a c x) + countOutermostCheckedList rest := by
        simp only [countOutermostCheckedList]
      have e2 : countOutermostChecked (JSONContent.mk t a c x) =
          match (JSONContent.mk t a c x).content with
          | none => 0
          | some l => countOutermostCheckedList l := by
        cases c with
        | none =>
          simp only [countOutermostChecked, JSONContent.content]
          rw [if_neg hch]
        | some l2 =>
          simp only [countOutermostChecked, JSONContent.content]
          rw [if_neg hch]
      show (stripCompletedTasksFromChildren (JSONContent.mk t a c x :: rest)).2.1 = _
      simp only [stripCompletedTasksFromChildren]
      rw [if_neg hch, hsome2]
      show (stripCompletedTasksFromNode (JSONContent.mk t a c x)).2.1 +
        (stripCompletedTasksFromChildren rest).2.1 = _
      rw [ihN, ihL, e1, e2]

theorem strip_preorder_all :
    (∀ n : JSONContent, ∀ m, (stripCompletedTasksFromNode n).1 = some m →
      List.Sublist (preorderTypes m) (preorderTypes n)) ∧
    (∀ l : List JSONContent,
      List.Sublist (preorderTypesList (stripCompletedTasksFromChildren l).1)
        (preorderTypesList l)) := by
  refine stripCompletedTasksFromNode.mutual_induct
    (fun n => ∀ m, (stripCompletedTasksFromNode n).1 = some m →
      List.Sublist (preorderTypes m) (preorderTypes n))
    (fun l => List.Sublist (preorderTypesList (stripCompletedTasksFromChildren l).1)
      (preorderTypesList l))
    ?_ ?_ ?_ ?_ ?_ ?_ ?_ ?_
  · intro t a x m h
    simp only [stripCompletedTasksFromNode, Option.some.injEq] at h
    subst h
    exact List.Sublist.refl _
  · intro t a children x res hcond ih m h
    have hcond2 : (decide (t = some "taskList") &&
        (stripCompletedTasksFromChildren children).1.isEmpty) = true := hcond
    simp only [stripCompletedTasksFromNode] at h
    rw [if_pos hcond2] at h
    simp at h
  · intro t a children x res hcond hch ih m h
    have hcond2 : ¬(decide (t = some "taskList") &&
        (stripCompletedTasksFromChildren children).1.isEmpty) = true := hcond
    have hch2 : (stripCompletedTasksFromChildren children).2.2 = true := hch
    simp only [stripCompletedTasksFromNode] at h
    rw [if_neg hcond2, if_pos hch2] at h
    simp only [Option.some.injEq] at h
    subst h
    simp only [preorderTypes]
    exact List.Sublist.cons₂ t ih
  · intro t a children x res hcond hch ih m h
    have hcond2 : ¬(decide (t = some "taskList") &&
        (stripCompletedTasksFromChildren children).1.isEmpty) = true := hcond
    have hch2 : ¬(stripCompletedTasksFromChildren children).2.2 = true := hch
    simp only [stripCompletedTasksFromNode] at h
    rw [if_neg hcond2, if_neg hch2] at h
    simp only [Option.some.injEq] at h
    subst h
    exact List.Sublist.refl _
  · exact List.Sublist.refl _
  · intro child rest hch ihL
    have e1 : (stripCompletedTasksFromChildren (child :: rest)).1 =
        (stripCompletedTasksFromChildren rest).1 := by
      simp only [stripCompletedTasksFromChildren]
      rw [if_pos hch]
    rw [e1]
    simp only [preorderTypesList]
    exact List.Sublist.trans ihL (List.sublist_append_right _ _)
  · intro child rest hch hd hnone ihN ihL
    have hnone2 : (stripCompletedTasksFromNode child).1 = none := hnone
    have e1 : (stripCompletedTasksFromChildren (child :: rest)).1 =
        (stripCompletedTasksFromChildren rest).1 := by
      simp only [stripCompletedTasksFromChildren]
      rw [if_neg hch, hnone2]
    rw [e1]
    simp only [preorderTypesList]
    exact List.Sublist.trans ihL (List.sublist_append_right _ _)
  · intro child rest hch hd n2 hsome ihN ihL
    have hsome2 : (stripCompletedTasksFromNode child).1 = some n2 := hsome
    have e1 : (stripCompletedTasksFromChildren (child :: rest)).1 =
        n2 :: (stripCompletedTasksFromChildren rest).1 := by
      simp only [stripCompletedTasksFromChildren]
      rw [if_neg hch, hsome2]
    rw [e1]
    simp only [preorderTypesList]
    exact List.Sublist.append (ihN n2 hsome2) ihL

theorem isCheckedTaskItem_contains {c : JSONContent} (h : c.isCheckedTaskItem = true) :
    containsCheckedTaskItem c = true := by
  cases c with
  | mk t a cc x =>
    cases cc with
    | none => simp only [containsCheckedTaskItem]; rw [h]; rfl
    | some l => simp only [containsCheckedTaskItem]; rw [h]; rfl

theorem containsChecked_parts {t : Option String} {a : Option (List (String × AttrValue))}
    {children : List JSONContent} {x : Option String}
    (h : containsCheckedTaskItem (JSONContent.mk t a (some children) x) = false) :
    (JSONContent.mk t a (some children) x).isCheckedTaskItem = false ∧
      containsCheckedList children = false := by
  simp only [containsCheckedTaskItem, Bool.or_eq_false_iff] at h
  exact h

theorem containsEmpty_parts {t : Option String} {a : Option (List (String × AttrValue))}
    {children : List JSONContent} {x : Option String}
    (h : containsEmptyTaskList (JSONContent.mk t a (some children) x) = false) :
    (JSONContent.mk t a (some children) x).isEmptyTaskList = false ∧
      containsEmptyTaskListIn children = false := by
  simp only [containsEmptyTaskList, Bool.or_eq_false_iff] at h
  exact h

theorem strip_clean_input_all :
    (∀ n : JSONContent, containsCheckedTaskItem n = false →
      containsEmptyTaskList n = false →
      stripCompletedTasksFromNode n = (some n, 0, false)) ∧
    (∀ l : List JSONContent,
      (∀ c ∈ l, containsCheckedTaskItem c = false ∧ containsEmptyTaskList c = false) →
      stripCompletedTasksFromChildren l = (l, 0, false)) := by
  refine stripCompletedTasksFromNode.mutual_induct
    (fun n => containsCheckedTaskItem n = false →
      containsEmptyTaskList n = false →
      stripCompletedTasksFromNode n = (some n, 0, false))
    (fun l => (∀ c ∈ l, containsCheckedTaskItem c = false ∧ containsEmptyTaskList c = false) →
      stripCompletedTasksFromChildren l = (l, 0, false))
    ?_ ?_ ?_ ?_ ?_ ?_ ?_ ?_
  · intro t a x h1 h2
    rfl
  · intro t a children x res hcond ih h1 h2
    have hcond2 : (decide (t = some "taskList") &&
        (stripCompletedTasksFromChildren children).1.isEmpty) = true := hcond
    have hparts1 := containsChecked_parts h1
    have hparts2 := containsEmpty_parts h2
    have hclean : ∀ c ∈ children,
        containsCheckedTaskItem c = false ∧ containsEmptyTaskList c = false := by
      intro c hc
      exact ⟨(containsCheckedList_eq_false_iff children).mp hparts1.2 c hc,
        (containsEmptyTaskListIn_eq_false_iff children).mp hparts2.2 c hc⟩
    have heq := ih hclean
    rw [heq] at hcond2
    simp only [Bool.and_eq_true, decide_eq_true_eq, List.isEmpty_iff] at hcond2
    obtain ⟨ht, hnil⟩ := hcond2
    subst hnil
    subst ht
    simp [JSONContent.isEmptyTaskList] at hparts2
  · intro t a children x res hcond hch ih h1 h2
    have hch2 : (stripCompletedTasksFromChildren children).2.2 = true := hch
    have hparts1 := containsChecked_parts h1
    have hparts2 := containsEmpty_parts h2
    have hclean : ∀ c ∈ children,
        containsCheckedTaskItem c = false ∧ containsEmptyTaskList c = false := by
      intro c hc
      exact ⟨(containsCheckedList_eq_false_iff children).mp hparts1.2 c hc,
        (containsEmptyTaskListIn_eq_false_iff children).mp hparts2.2 c hc⟩
    have heq := ih hclean
    rw [heq] at hch2
    simp at hch2
  · intro t a children x res hcond hch ih h1 h2
    have hcond2 : ¬(decide (t = some "taskList") &&
        (stripCompletedTasksFromChildren children).1.isEmpty) = true := hcond
    have hch2 : ¬(stripCompletedTasksFromChildren children).2.2 = true := hch
    have hparts1 := containsChecked_parts h1
    have hparts2 := containsEmpty_parts h2
    have hclean : ∀ c ∈ children,
        containsCheckedTaskItem c = false ∧ containsEmptyTaskList c = false := by
      intro c hc
      exact ⟨(containsCheckedList_eq_false_iff children).mp hparts1.2 c hc,
        (containsEmptyTaskListIn_eq_false_iff children).mp hparts2.2 c hc⟩
    have heq := ih hclean
    simp only [stripCompletedTasksFromNode]
    rw [if_neg hcond2, if_neg hch2, heq]
  · intro h
    rfl
  · intro child rest hch ihL h
    have hc := (h child (by simp)).1
    rw [isCheckedTaskItem_contains hch] at hc
    simp at hc
  · intro child rest hch hd hnone ihN ihL h
    have hnone2 : (stripCompletedTasksFromNode child).1 = none := hnone
    have hcc := h child (by simp)
    have heq := ihN hcc.1 hcc.2
    rw [heq] at hnone2
    simp at hnone2
  · intro child rest hch hd n2 hsome ihN ihL h
    have hsome2 : (stripCompletedTasksFromNode child).1 = some n2 := hsome
    clear hsome
    clear hd
    have hcc := h child (by simp)
    have heqN := ihN hcc.1 hcc.2
    have heqL := ihL fun c hc => h c (by simp [hc])
    rw [heqN] at hsome2
    simp only [Option.some.injEq] at hsome2
    subst hsome2
    simp only [stripCompletedTasksFromChildren]
    rw [if_neg hch, heqN, heqL]
    rfl

theorem stripNode_isSome (n : JSONContent) (h : n.type ≠ some "taskList") :
    ∃ m, (stripCompletedTasksFromNode n).1 = some m := by
  cases n with
  | mk t a c x =>
    cases c with
    | none => exact ⟨_, rfl⟩
    | some children =>
      simp only [stripCompletedTasksFromNode]
      split
      · rename_i hcond
        exfalso
        have ht : t = some "taskList" := by
          have := (Bool.and_eq_true _ _).mp hcond
          simpa using this.1
        exact h (by simpa [JSONContent.type] using ht)
      · split
        · exact ⟨_, rfl⟩
        · exact ⟨_, rfl⟩

theorem countOutermost_not_checked (n : JSONContent) (h : n.isCheckedTaskItem = false) :
    countOutermostChecked n =
      match n.content with
      | none => 0
      | some l => countOutermostCheckedList l := by
  cases n with
  | mk t a c x =>
    cases c with
    | none =>
      simp only [countOutermostChecked, JSONContent.content]
      rw [if_neg (by simp [h])]
    | some l =>
      simp only [countOutermostChecked, JSONContent.content]
      rw [if_neg (by simp [h])]

/-- Concrete document trees used to exercise the stripper. -/
def exPara : JSONContent := .mk (some "paragraph") none none none

/-- A checked task item containing only a paragraph. -/
def exCheckedLeaf : JSONContent :=
  .mk (some "taskItem") (some [("checked", AttrValue.b true)]) (some [exPara]) none

/-- A task list holding the checked leaf item. -/
def exInnerList : JSONContent := .mk (some "taskList") none (some [exCheckedLeaf]) none

/-- A checked task item with a nested task list that itself holds a checked
item. -/
def exCheckedOuter : JSONContent :=
  .mk (some "taskItem") (some [("checked", AttrValue.b true)]) (some [exPara, exInnerList]) none

/-- A task list holding the outer checked item. -/
def exOuterList : JSONContent := .mk (some "taskList") none (some [exCheckedOuter]) none

/-- A document whose only checked task item contains another checked task
item nested below it. -/
def exDocNested : JSONContent := .mk (some "doc") none (some [exOuterList]) none

/-- A document containing an empty task list and no checked task item. -/
def exEmptyListDoc : JSONContent :=
  .mk (some "doc") none (some [JSONContent.mk (some "taskList") none (some []) none]) none

/-- C10 (counterexample): the claim fails as stated.  On `exDocNested` the
code reports `removedCount = 1` although two checked task items are present
in the input and none survive in the output (a checked item nested inside a
removed checked item is not counted).  On `exEmptyListDoc`, which contains
no checked task item at all, the returned document is not the input
unchanged: the empty task list is dropped. -/
theorem claim_C10_counterexample :
    (stripCompletedTasksFromDoc exDocNested).2 = 1 ∧
    countCheckedTotal exDocNested = 2 ∧
    countCheckedTotal (stripCompletedTasksFromDoc exDocNested).1 = 0 ∧
    containsCheckedTaskItem exEmptyListDoc = false ∧
    (stripCompletedTasksFromDoc exEmptyListDoc).2 = 0 ∧
    (stripCompletedTasksFromDoc exEmptyListDoc).1 ≠ exEmptyListDoc := by
  refine ⟨rfl, rfl, rfl, rfl, rfl, fun h => ?_⟩
  have h3 : (some 0 : Option Nat) = some 1 :=
    congrArg (fun z => (JSONContent.content z).map List.length) h
  simp at h3

/-- C10 (amended): for every document whose root is a `doc` node, the
stripper returns a tree with no checked task item and no `taskList` with an
empty child array, reports the number of outermost checked task items (those
not nested inside another checked task item), keeps the surviving node types
in preorder as a sublist of the input's preorder, keeps the `doc` root, and
returns the input unchanged with count `0` when the input has no checked
task item and no empty task list. -/
theorem claim_C10_stripCompletedTasks (d : JSONContent) (hd : d.type = some "doc") :
    containsCheckedTaskItem (stripCompletedTasksFromDoc d).1 = false ∧
    containsEmptyTaskList (stripCompletedTasksFromDoc d).1 = false ∧
    (stripCompletedTasksFromDoc d).2 = countOutermostChecked d ∧
    List.Sublist (preorderTypes (stripCompletedTasksFromDoc d).1) (preorderTypes d) ∧
    (stripCompletedTasksFromDoc d).1.type = some "doc" ∧
    (containsCheckedTaskItem d = false → containsEmptyTaskList d = false →
      stripCompletedTasksFromDoc d = (d, 0)) := by
  have hne : d.type ≠ some "taskList" := by
    rw [hd]
    intro hcontra
    simp at hcontra
  obtain ⟨m, hm⟩ := stripNode_isSome d hne
  have hmt : m.type = d.type := stripNode_type hm
  have hdoc : stripCompletedTasksFromDoc d = (m, (stripCompletedTasksFromNode d).2.1) := by
    simp only [stripCompletedTasksFromDoc, hm]
    rw [if_pos (by rw [hmt, hd])]
  have hclean := stripNode_clean d m hm
  have hdchecked : d.isCheckedTaskItem = false := by
    simp [JSONContent.isCheckedTaskItem, hd]
  refine ⟨?_, ?_, ?_, ?_, ?_, ?_⟩
  · rw [hdoc]
    show containsCheckedTaskItem m = false
    rw [hclean.1, hdchecked]
  · rw [hdoc]
    exact hclean.2
  · rw [hdoc]
    show (stripCompletedTasksFromNode d).2.1 = countOutermostChecked d
    rw [strip_count_all.1 d, countOutermost_not_checked d hdchecked]
  · rw [hdoc]
    exact strip_preorder_all.1 d m hm
  · rw [hdoc]
    show m.type = some "doc"
    rw [hmt, hd]
  · intro h1 h2
    have hstrip := strip_clean_input_all.1 d h1 h2
    simp only [stripCompletedTasksFromDoc, hstrip]
    rw [if_pos hd]

/-- C10 (witness): the amended theorem applied to a small concrete document
with one unchecked task item. -/
theorem claim_C10_stripCompletedTasks_witness :
    containsCheckedTaskItem (stripCompletedTasksFromDoc exEmptyListDoc).1 = false ∧
    containsEmptyTaskList (stripCompletedTasksFromDoc exEmptyListDoc).1 = false ∧
    (stripCompletedTasksFromDoc exEmptyListDoc).2 = countOutermostChecked exEmptyListDoc ∧
    List.Sublist (preorderTypes (stripCompletedTasksFromDoc exEmptyListDoc).1)
      (preorderTypes exEmptyListDoc) ∧
    (stripCompletedTasksFromDoc exEmptyListDoc).1.type = some "doc" ∧
    (containsCheckedTaskItem exEmptyListDoc = false →
      containsEmptyTaskList exEmptyListDoc = false →
      stripCompletedTasksFromDoc exEmptyListDoc = (exEmptyListDoc, 0)) :=
  claim_C10_stripCompletedTasks exEmptyListDoc rfl

/-! ## NoteClient synchronisation state (NoteClient.tsx)

The dirty/saved version counters, the debounced save timers, the remote
snapshot decision and the save paths of `NoteClient` are modelled as a
state machine.  The remote store write outcome is a boolean parameter
(`writeOk`), delivered when a scheduled save fires.
-/

/-- The `SyncStatus` union type (NoteClient.tsx line 26). -/
inductive SyncStatus where
  | loading
  | syncing
  | synced
  | error
deriving DecidableEq, Repr

/-- The two version counters and the sync status they drive. -/
structure SyncCounters where
  changeVersion : Nat
  savedVersion : Nat
  status : SyncStatus
deriving DecidableEq, Repr

/-- `markDirty` (NoteClient.tsx lines 242-246): bump `changeVersion`, set
status `syncing`, return the new version. -/
def markDirtyCounters (s : SyncCounters) : SyncCounters × Nat :=
  let v := s.changeVersion + 1
  ({ changeVersion := v, savedVersion := s.savedVersion, status := .syncing }, v)

/-- `markSaved` (NoteClient.tsx lines 248-257): raise `savedVersion` to the
saved write's version if larger, then report `synced` exactly when
`savedVersion >= changeVersion`. -/
def markSavedCounters (version : Nat) (s : SyncCounters) : SyncCounters :=
  let saved := if version > s.savedVersion then version else s.savedVersion
  { changeVersion := s.changeVersion, savedVersion := saved,
    status := if saved ≥ s.changeVersion then .synced else .syncing }

/-- The reset performed when the open document identity changes
(NoteClient.tsx lines 221-240): counters return to `(0,0)` and the status
effect sets `loading`. -/
def resetCounters : SyncCounters :=
  { changeVersion := 0, savedVersion := 0, status := .loading }

/-- The counter operations named by the specification: local dirtying,
successful persistence of a version, and document-switch reset. -/
inductive SyncOp where
  | markDirty
  | markSaved (v : Nat)
  | reset
deriving DecidableEq, Repr

/-- One step of the counter machine. -/
def syncStep (s : SyncCounters) : SyncOp → SyncCounters
  | .markDirty => (markDirtyCounters s).1
  | .markSaved v => markSavedCounters v s
  | .reset => resetCounters

/-- Run a sequence of counter operations. -/
def runSyncOps (s : SyncCounters) : List SyncOp → SyncCounters
  | [] => s
  | op :: rest => runSyncOps (syncStep s op) rest

/-- Validity of an operation sequence: `markSaved v` is only ever called
with a version previously returned by `markDirty` since the last reset,
i.e. with `1 ≤ v ≤ changeVersion` at the point of the call (the values
returned since the last reset are exactly `1..changeVersion`). -/
def validSyncOps (s : SyncCounters) : List SyncOp → Bool
  | [] => true
  | .markSaved v :: rest =>
    (1 ≤ v && v ≤ s.changeVersion) && validSyncOps (syncStep s (.markSaved v)) rest
  | op :: rest => validSyncOps (syncStep s op) rest

/-- The invariant of the counter machine: `savedVersion ≤ changeVersion`,
and the status is `synced` only when the counters agree. -/
def counterInvariant (s : SyncCounters) : Prop :=
  s.savedVersion ≤ s.changeVersion ∧ (s.status = .synced → s.savedVersion = s.changeVersion)

theorem syncStep_invariant {s : SyncCounters} (hs : counterInvariant s) (op : SyncOp)
    (hvalid : ∀ v, op = .markSaved v → 1 ≤ v ∧ v ≤ s.changeVersion) :
    counterInvariant (syncStep s op) := by
  cases op with
  | markDirty =>
    refine ⟨?_, ?_⟩
    · exact Nat.le_trans hs.1 (Nat.le_succ _)
    · intro h
      simp [syncStep, markDirtyCounters] at h
  | markSaved v =>
    obtain ⟨hv1, hv2⟩ := hvalid v rfl
    simp only [syncStep, markSavedCounters]
    by_cases hgt : v > s.savedVersion
    · rw [if_pos hgt]
      refine ⟨hv2, ?_⟩
      intro hst
      by_cases hge : v ≥ s.changeVersion
      · exact Nat.le_antisymm hv2 hge
      · rw [if_neg hge] at hst
        simp at hst
    · rw [if_neg hgt]
      refine ⟨hs.1, ?_⟩
      intro hst
      by_cases hge : s.savedVersion ≥ s.changeVersion
      · exact Nat.le_antisymm hs.1 hge
      · rw [if_neg hge] at hst
        simp at hst
  | reset =>
    exact ⟨Nat.le_refl 0, fun _ => rfl⟩

theorem runSyncOps_invariant (ops : List SyncOp) :
    ∀ s : SyncCounters, counterInvariant s → validSyncOps s ops = true →
      counterInvariant (runSyncOps s ops) := by
  induction ops with
  | nil => intro s hs _; exact hs
  | cons op rest ih =>
    intro s hs hv
    cases op with
    | markDirty =>
      exact ih _ (syncStep_invariant hs _ (by intro v h; cases h)) hv
    | markSaved v =>
      simp only [validSyncOps, Bool.and_eq_true] at hv
      refine ih _ (syncStep_invariant hs _ ?_) hv.2
      intro w hw
      cases hw
      constructor
      · simpa using hv.1.1
      · simpa using hv.1.2
    | reset =>
      exact ih _ (syncStep_invariant hs _ (by intro v h; cases h)) hv

/-- C2 (counterexample): the claim's biconditional "status is synced iff
the counters are equal" fails.  After `markDirty`, `markSaved 1`, `reset`
— a valid sequence — the counters are equal `(0,0)` but the status is
`loading`, not `synced` (switching documents sets status `loading`). -/
theorem claim_C2_counterexample :
    validSyncOps resetCounters [SyncOp.markDirty, SyncOp.markSaved 1, SyncOp.reset] = true ∧
    (runSyncOps resetCounters [SyncOp.markDirty, SyncOp.markSaved 1, SyncOp.reset]).savedVersion =
      (runSyncOps resetCounters [SyncOp.markDirty, SyncOp.markSaved 1, SyncOp.reset]).changeVersion ∧
    (runSyncOps resetCounters [SyncOp.markDirty, SyncOp.markSaved 1, SyncOp.reset]).status ≠
      SyncStatus.synced := by
  decide

/-- C2 (amended): from the reset state, under sequences of `markDirty`,
`markSaved v` (with `v` previously returned by `markDirty` for this
document, i.e. `1 ≤ v ≤ changeVersion`) and `reset`, the invariant
`savedVersion ≤ changeVersion` always holds, and the status is `synced`
only if the counters are equal (the converse fails: the reset state has
equal counters and status `loading`). -/
theorem claim_C2_counter_invariant (ops : List SyncOp)
    (hvalid : validSyncOps resetCounters ops = true) :
    (runSyncOps resetCounters ops).savedVersion ≤
      (runSyncOps resetCounters ops).changeVersion ∧
    ((runSyncOps resetCounters ops).status = SyncStatus.synced →
      (runSyncOps resetCounters ops).savedVersion =
        (runSyncOps resetCounters ops).changeVersion) :=
  runSyncOps_invariant ops resetCounters ⟨Nat.le_refl 0, fun _ => rfl⟩ hvalid

/-- C2 (witness): the amended invariant applied to the concrete valid
sequence `markDirty; markSaved 1`. -/
theorem claim_C2_counter_invariant_witness :
    (runSyncOps resetCounters [SyncOp.markDirty, SyncOp.markSaved 1]).savedVersion ≤
      (runSyncOps resetCounters [SyncOp.markDirty, SyncOp.markSaved 1]).changeVersion ∧
    ((runSyncOps resetCounters [SyncOp.markDirty, SyncOp.markSaved 1]).status =
        SyncStatus.synced →
      (runSyncOps resetCounters [SyncOp.markDirty, SyncOp.markSaved 1]).savedVersion =
        (runSyncOps resetCounters [SyncOp.markDirty, SyncOp.markSaved 1]).changeVersion) :=
  claim_C2_counter_invariant [SyncOp.markDirty, SyncOp.markSaved 1] (by decide)

/-- The payload captured by a scheduled content save: the closure created
in `scheduleContentSave` (NoteClient.tsx lines 662-669) captures the
payload together with the `saveContentNow` instance of schedule time, whose
`noteId` and `isReadOnly` were fixed when it was created. -/
structure ContentSavePayload where
  content : JSONContent
  plainText : String
  version : Nat
  noteId : String
  readOnly : Bool

/-- The payload captured by a scheduled title save (NoteClient.tsx lines
671-678), with the captured `noteId` and `isReadOnly`. -/
structure TitleSavePayload where
  newTitle : String
  version : Nat
  noteId : String
  readOnly : Bool
deriving DecidableEq, Repr

/-- The remote document store, reduced to the fields written by the save
paths; the newest write for a document id is the first association. -/
structure NoteStore where
  titles : List (String × String)
  contents : List (String × JSONContent)

/-- The client state of one mounted `NoteClient` component. -/
structure Client where
  noteId : String
  counters : SyncCounters
  hydrated : Bool
  lastSubmitted : Option JSONContent
  editorContent : JSONContent
  titleField : String
  isReadOnly : Bool
  contentTimer : Option ContentSavePayload
  titleTimer : Option TitleSavePayload
  store : NoteStore

/-- `markDirty` at the client level. -/
def markDirtyClient (c : Client) : Client × Nat :=
  let r := markDirtyCounters c.counters
  ({ c with counters := r.1 }, r.2)

/-- `scheduleContentSave` (NoteClient.tsx lines 662-669): clear any pending
content timer and arm a new one holding the payload. -/
def scheduleContentSave (c : Client) (p : ContentSavePayload) : Client :=
  { c with contentTimer := some p }

/-- `scheduleTitleSave` (NoteClient.tsx lines 671-678). -/
def scheduleTitleSave (c : Client) (p : TitleSavePayload) : Client :=
  { c with titleTimer := some p }

/-- The editor `update` handler (NoteClient.tsx lines 968-975): the editor
content has changed; unless read-only, `markDirty` and schedule the
debounced content save with the version just returned. -/
def handleEditorUpdate (c : Client) (newContent : JSONContent) (plainText : String) : Client :=
  let c0 := { c with editorContent := newContent }
  if c.isReadOnly then c0
  else
    let r := markDirtyClient c0
    scheduleContentSave r.1
      { content := newContent, plainText := plainText, version := r.2,
        noteId := c.noteId, readOnly := c.isReadOnly }

/-- The title input `onChange` handler (NoteClient.tsx lines 1389-1395). -/
def handleTitleChange (c : Client) (value : String) : Client :=
  if c.isReadOnly then c
  else
    let c0 := { c with titleField := value }
    let r := markDirtyClient c0
    scheduleTitleSave r.1
      { newTitle := value, version := r.2, noteId := c.noteId, readOnly := c.isReadOnly }

/-- `saveContentNow` (NoteClient.tsx lines 460-484), with the write outcome
of `updateDoc` as parameter `writeOk`.  `lastSubmittedContentRef` is set
before the write is awaited, so it is updated even when the write fails;
on failure the status becomes `error` and `markSaved` is not called. -/
def saveContentNow (c : Client) (p : ContentSavePayload) (writeOk : Bool) : Client :=
  if p.readOnly then c
  else
    let c1 := { c with lastSubmitted := some p.content }
    if writeOk then
      { c1 with
        store := { c1.store with contents := (p.noteId, p.content) :: c1.store.contents },
        counters := markSavedCounters p.version c1.counters }
    else
      { c1 with counters := { c1.counters with status := .error } }

/-- `saveTitleNow` (NoteClient.tsx lines 486-500). -/
def saveTitleNow (c : Client) (p : TitleSavePayload) (writeOk : Bool) : Client :=
  if p.readOnly then c
  else if writeOk then
    { c with
      store := { c.store with titles := (p.noteId, p.newTitle) :: c.store.titles },
      counters := markSavedCounters p.version c.counters }
  else
    { c with counters := { c.counters with status := .error } }

/-- A pending content timer fires: the one-shot timeout is consumed and the
captured `saveContentNow` closure runs. -/
def fireContentTimer (c : Client) (writeOk : Bool) : Client :=
  match c.contentTimer with
  | none => c
  | some p => saveContentNow { c with contentTimer := none } p writeOk

/-- A pending title timer fires. -/
def fireTitleTimer (c : Client) (writeOk : Bool) : Client :=
  match c.titleTimer with
  | none => c
  | some p => saveTitleNow { c with titleTimer := none } p writeOk

/-- The open document identity changes (NoteClient.tsx lines 221-240): the
status becomes `loading`, the hydration flag, `lastSubmittedContentRef` and
both version counters are reset.  The content-save timer is cleared because
the content `update` effect's cleanup (lines 978-983) re-runs when its
`scheduleContentSave` dependency — which depends on `noteId` through
`saveContentNow` — changes identity.  The title timer is NOT cleared: its
cleanup effect (lines 1209-1215) has an empty dependency array and runs
only on unmount, and the component survives the id change (all its reset
logic is keyed on `noteId` for exactly that reason). -/
def switchNote (c : Client) (newId : String) : Client :=
  { c with noteId := newId, counters := resetCounters, hydrated := false,
           lastSubmitted := none, contentTimer := none }

/-- The content-apply decision of the snapshot handler (NoteClient.tsx
lines 393-405), as a pure function of its five inputs. -/
def snapshotContentApplies (newContent currentContent : JSONContent)
    (lastSubmitted : Option JSONContent) (hydrated : Bool)
    (changeVersion savedVersion : Nat) : Bool :=
  let isInitialHydration := !hydrated
  let hasPendingLocalContent := decide (savedVersion < changeVersion)
  let remoteMatchesLastSubmitted :=
    match lastSubmitted with
    | some prev => isEquivalentEditorContent newContent prev
    | none => false
  let remoteMatchesCurrentEditor := isEquivalentEditorContent newContent currentContent
  let isExpectedLocalContentEcho := !isInitialHydration && remoteMatchesLastSubmitted
  let shouldApplyRemoteContent := isInitialHydration || !hasPendingLocalContent
  !remoteMatchesCurrentEditor && !isExpectedLocalContentEcho && shouldApplyRemoteContent

/-- The remote snapshot handler (NoteClient.tsx lines 359-447), restricted
to the state this model tracks: the title is applied unconditionally, the
body only when `snapshotContentApplies` allows it, the hydration flag is
set, and the status becomes `synced` when the counters agree. -/
def applyRemoteSnapshot (c : Client) (remoteTitle : String) (remoteContent : JSONContent) :
    Client :=
  let c0 := { c with titleField := remoteTitle }
  let applied := snapshotContentApplies remoteContent c.editorContent c.lastSubmitted
    c.hydrated c.counters.changeVersion c.counters.savedVersion
  let c1 := if applied then { c0 with editorContent := remoteContent } else c0
  let c2 := { c1 with hydrated := true }
  if c2.counters.changeVersion = c2.counters.savedVersion then
    { c2 with counters := { c2.counters with status := .synced } }
  else c2

theorem applyRemoteSnapshot_editorContent (c : Client) (rt : String) (rc : JSONContent) :
    (applyRemoteSnapshot c rt rc).editorContent =
      if snapshotContentApplies rc c.editorContent c.lastSubmitted c.hydrated
          c.counters.changeVersion c.counters.savedVersion then rc
      else c.editorContent := by
  simp only [applyRemoteSnapshot]
  split
  · split
    · rfl
    · rfl
  · split
    · rfl
    · rfl

/-- C1: for every remote snapshot whose body differs from the current
editor content and from the last locally submitted payload, and with the
counter invariant `savedVersion ≤ changeVersion`, the snapshot body is
applied to the editor iff this is the first snapshot (hydration pending) or
there is no unsaved local edit (`changeVersion = savedVersion`); in
particular with hydration done and `changeVersion > savedVersion` the
editor content is left unchanged. -/
theorem claim_C1_snapshot_apply (c : Client) (rt : String) (rc : JSONContent)
    (hcur : isEquivalentEditorContent rc c.editorContent = false)
    (hlast : ∀ prev, c.lastSubmitted = some prev →
      isEquivalentEditorContent rc prev = false)
    (hinv : c.counters.savedVersion ≤ c.counters.changeVersion) :
    ((applyRemoteSnapshot c rt rc).editorContent = rc ↔
      (c.hydrated = false ∨
        c.counters.changeVersion = c.counters.savedVersion)) ∧
    (c.hydrated = true → c.counters.savedVersion < c.counters.changeVersion →
      (applyRemoteSnapshot c rt rc).editorContent = c.editorContent) := by
  have hne : rc ≠ c.editorContent := ne_of_deepEqualNode_eq_false hcur
  have happ : snapshotContentApplies rc c.editorContent c.lastSubmitted c.hydrated
      c.counters.changeVersion c.counters.savedVersion =
      (!c.hydrated || !decide (c.counters.savedVersion < c.counters.changeVersion)) := by
    simp only [snapshotContentApplies, hcur]
    cases hls : c.lastSubmitted with
    | none => simp
    | some prev =>
      simp [hlast prev hls]
  have hed := applyRemoteSnapshot_editorContent c rt rc
  rw [happ] at hed
  constructor
  · constructor
    · intro h
      by_cases hb : (!c.hydrated ||
          !decide (c.counters.savedVersion < c.counters.changeVersion)) = true
      · rcases (Bool.or_eq_true _ _).mp hb with h1 | h2
        · left
          simpa using h1
        · right
          have hnl : ¬c.counters.savedVersion < c.counters.changeVersion := by
            simpa using h2
          exact Nat.le_antisymm (Nat.le_of_not_lt hnl) hinv
      · rw [if_neg hb] at hed
        rw [hed] at h
        exact absurd h.symm hne
    · intro h
      have hb : (!c.hydrated ||
          !decide (c.counters.savedVersion < c.counters.changeVersion)) = true := by
        rcases h with h1 | h1
        · simp [h1]
        · simp [h1]
      rw [hed, if_pos hb]
  · intro hh hlt
    have hb : ¬(!c.hydrated ||
        !decide (c.counters.savedVersion < c.counters.changeVersion)) = true := by
      simp [hh, hlt]
    rw [hed, if_neg hb]

/-- A concrete, fully synced client on note `"A"` holding a paragraph. -/
def clientSyncedOnA : Client :=
  { noteId := "A",
    counters := { changeVersion := 1, savedVersion := 1, status := .synced },
    hydrated := true, lastSubmitted := none, editorContent := exPara,
    titleField := "", isReadOnly := false, contentTimer := none,
    titleTimer := none, store := { titles := [], contents := [] } }

/-- C1 (witness): the snapshot decision at a concrete synced client and a
remote body that differs from the editor content. -/
theorem claim_C1_snapshot_apply_witness :
    ((applyRemoteSnapshot clientSyncedOnA "t" emptyDocNode).editorContent = emptyDocNode ↔
      (clientSyncedOnA.hydrated = false ∨
        clientSyncedOnA.counters.changeVersion = clientSyncedOnA.counters.savedVersion)) ∧
    (clientSyncedOnA.hydrated = true →
      clientSyncedOnA.counters.savedVersion < clientSyncedOnA.counters.changeVersion →
      (applyRemoteSnapshot clientSyncedOnA "t" emptyDocNode).editorContent =
        clientSyncedOnA.editorContent) :=
  claim_C1_snapshot_apply clientSyncedOnA "t" emptyDocNode rfl
    (fun _ h => nomatch h) (Nat.le_refl 1)

/-- C3: when the write behind a fired content or title save fails, the
status becomes `error`, both version counters are unchanged, the consumed
timer is not re-armed and no other timer or store write is produced — the
save path issues no retry of its own. -/
theorem claim_C3_write_failure (c : Client) :
    (∀ p : ContentSavePayload, c.contentTimer = some p → p.readOnly = false →
      (fireContentTimer c false).counters.status = SyncStatus.error ∧
      (fireContentTimer c false).counters.changeVersion = c.counters.changeVersion ∧
      (fireContentTimer c false).counters.savedVersion = c.counters.savedVersion ∧
      (fireContentTimer c false).contentTimer = none ∧
      (fireContentTimer c false).titleTimer = c.titleTimer ∧
      (fireContentTimer c false).store = c.store) ∧
    (∀ p : TitleSavePayload, c.titleTimer = some p → p.readOnly = false →
      (fireTitleTimer c false).counters.status = SyncStatus.error ∧
      (fireTitleTimer c false).counters.changeVersion = c.counters.changeVersion ∧
      (fireTitleTimer c false).counters.savedVersion = c.counters.savedVersion ∧
      (fireTitleTimer c false).titleTimer = none ∧
      (fireTitleTimer c false).contentTimer = c.contentTimer ∧
      (fireTitleTimer c false).store = c.store) := by
  constructor
  · intro p hp hro
    have hro2 : ¬p.readOnly = true := by simp [hro]
    simp only [fireContentTimer, hp, saveContentNow]
    rw [if_neg hro2]
    simp
  · intro p hp hro
    have hro2 : ¬p.readOnly = true := by simp [hro]
    simp only [fireTitleTimer, hp, saveTitleNow]
    rw [if_neg hro2]
    simp

/-- A pending content-save payload for note `"A"`. -/
def pendingContentPayload : ContentSavePayload :=
  { content := exPara, plainText := "p", version := 1, noteId := "A", readOnly := false }

/-- A pending title-save payload for note `"A"`. -/
def pendingTitlePayload : TitleSavePayload :=
  { newTitle := "T", version := 2, noteId := "A", readOnly := false }

/-- A concrete idle client on note `"A"` with a pending content save and a
pending title save. -/
def clientWithPendingSaves : Client :=
  { noteId := "A",
    counters := { changeVersion := 2, savedVersion := 0, status := .syncing },
    hydrated := true, lastSubmitted := none, editorContent := exPara,
    titleField := "", isReadOnly := false,
    contentTimer := some pendingContentPayload,
    titleTimer := some pendingTitlePayload,
    store := { titles := [], contents := [] } }

/-- C3 (witness): the failed-write behaviour at a concrete client with a
pending content save. -/
theorem claim_C3_write_failure_witness :
    (fireContentTimer clientWithPendingSaves false).counters.status = SyncStatus.error ∧
    (fireContentTimer clientWithPendingSaves false).counters.changeVersion =
      clientWithPendingSaves.counters.changeVersion ∧
    (fireContentTimer clientWithPendingSaves false).counters.savedVersion =
      clientWithPendingSaves.counters.savedVersion ∧
    (fireContentTimer clientWithPendingSaves false).contentTimer = none ∧
    (fireContentTimer clientWithPendingSaves false).titleTimer =
      clientWithPendingSaves.titleTimer ∧
    (fireContentTimer clientWithPendingSaves false).store = clientWithPendingSaves.store :=
  (claim_C3_write_failure clientWithPendingSaves).1 pendingContentPayload rfl rfl

/-- A freshly hydrated, fully synced client on note `"A"` with no pending
timers. -/
def clientOnA : Client :=
  { noteId := "A",
    counters := { changeVersion := 0, savedVersion := 0, status := .synced },
    hydrated := true, lastSubmitted := none, editorContent := emptyDocNode,
    titleField := "", isReadOnly := false, contentTimer := none,
    titleTimer := none, store := { titles := [], contents := [] } }

/-- C4 (failing execution): edit the title of note `A` (arming the 600 ms
debounced title save with version 1), switch to note `B` before it fires
(counters reset to `(0,0)`, content timer cleared, but the title timer
survives because its cleanup runs only on unmount), then let the timer
fire with a successful write.  The stale save writes title `"Hello"` into
note `A`'s store document and its `markSaved(1)` raises the freshly reset
counters of note `B`: `savedVersion` becomes `1 > changeVersion = 0` and
the status becomes `synced`.  The claim that a save scheduled for `A` can
never raise `B`'s `savedVersion` after the switch is violated; by contrast
the content timer is indeed cleared by the switch. -/
theorem claim_C4_stale_title_timer :
    (switchNote (handleTitleChange clientOnA "Hello") "B").titleTimer =
      some { newTitle := "Hello", version := 1, noteId := "A", readOnly := false } ∧
    (switchNote (handleTitleChange clientOnA "Hello") "B").counters = resetCounters ∧
    (fireTitleTimer (switchNote (handleTitleChange clientOnA "Hello") "B") true).noteId = "B" ∧
    (fireTitleTimer (switchNote (handleTitleChange clientOnA "Hello") "B")
      true).counters.changeVersion = 0 ∧
    (fireTitleTimer (switchNote (handleTitleChange clientOnA "Hello") "B")
      true).counters.savedVersion = 1 ∧
    (fireTitleTimer (switchNote (handleTitleChange clientOnA "Hello") "B")
      true).counters.status = SyncStatus.synced ∧
    (fireTitleTimer (switchNote (handleTitleChange clientOnA "Hello") "B")
      true).store.titles.lookup "A" = some "Hello" ∧
    (fireTitleTimer (switchNote (handleTitleChange clientOnA "Hello") "B")
      true).store.titles.lookup "B" = none ∧
    (switchNote (handleEditorUpdate clientOnA exPara "p") "B").contentTimer.isNone = true := by
  decide

/-! ## Code language detection and formatting (`codeFormat.ts` / `codeLowlight.ts`)

External collaborators are parameters: `jsonParses` models `JSON.parse`
success, `highlightRel` models the highlight.js relevance score of a
grammar on a text (an integer count in highlight.js; the `try-catch` and
the non-number fallback of the source both yield `0`, which a total
function subsumes), and `prettierFormat` / `sqlFormat` model the
formatting backends, returning the formatted text or the thrown error's
message.  JavaScript numbers appearing in detection results are modelled
by `JsNumber`, which includes the infinities and `NaN` produced and
compared by the source (`Number.POSITIVE_INFINITY`, subtraction, `>=`).
-/

/-- JavaScript numbers as used by the relevance arithmetic. -/
inductive JsNumber where
  | nan
  | negInf
  | num (v : Int)
  | posInf
deriving DecidableEq, Repr

/-- JavaScript `a >= b`. -/
def JsNumber.jge : JsNumber → JsNumber → Bool
  | .nan, _ => false
  | _, .nan => false
  | .posInf, _ => true
  | .num _, .posInf => false
  | .num a, .num b => decide (b ≤ a)
  | .num _, .negInf => true
  | .negInf, .negInf => true
  | .negInf, _ => false

/-- JavaScript subtraction `a - b`. -/
def JsNumber.jsub : JsNumber → JsNumber → JsNumber
  | .nan, _ => .nan
  | _, .nan => .nan
  | .posInf, .posInf => .nan
  | .posInf, _ => .posInf
  | .negInf, .negInf => .nan
  | .negInf, _ => .negInf
  | .num _, .posInf => .negInf
  | .num _, .negInf => .posInf
  | .num a, .num b => .num (a - b)

/-- JavaScript `Math.max(a, b)`. -/
def JsNumber.jmax : JsNumber → JsNumber → JsNumber
  | .nan, _ => .nan
  | _, .nan => .nan
  | .posInf, _ => .posInf
  | _, .posInf => .posInf
  | .num a, .num b => .num (max a b)
  | .num a, .negInf => .num a
  | .negInf, .num b => .num b
  | .negInf, .negInf => .negInf

/-- Whether a string starts with a given character (`String.prototype.startsWith`
with a one-character argument). -/
def startsWithChar (s : String) (c : Char) : Bool :=
  match s.data with
  | [] => false
  | d :: _ => d = c

/-- The thirteen grammars registered on `editorLowlight`
(`codeLowlight.ts` lines 147-167), in registration order. -/
def registeredLanguages : List String :=
  ["bash", "css", "go", "html", "java", "javascript", "json", "markdown",
   "python", "scss", "sql", "typescript", "yaml"]

/-- `aliasToLanguage` (`codeLowlight.ts` lines 169-180). -/
def aliasToLanguage : List (String × String) :=
  [("sh", "bash"), ("shell", "bash"), ("zsh", "bash"), ("js", "javascript"),
   ("jsx", "javascript"), ("ts", "typescript"), ("tsx", "typescript"),
   ("yml", "yaml"), ("md", "markdown"), ("xml", "html")]

/-- `supportedLanguages`: the registered names plus the alias keys. -/
def supportedLanguages : List String :=
  registeredLanguages ++ aliasToLanguage.map Prod.fst

/-- `normalizeCodeLanguage` (`codeLowlight.ts` lines 196-202). -/
def normalizeCodeLanguage (input : Option String) : Option String :=
  match input with
  | none => none
  | some s =>
    if s = "" then none
    else
      let normalized := jsLower (jsTrim s)
      if normalized = "" then none
      else if !(supportedLanguages.contains normalized) then none
      else
        match aliasToLanguage.lookup normalized with
        | some mapped => some mapped
        | none => some normalized

/-- `isStrictJsonSnippet` (`codeLowlight.ts` lines 204-219): the trimmed
snippet is non-empty, starts with a brace or bracket, and parses as JSON. -/
def isStrictJsonSnippet (jsonParses : String → Bool) (code : String) : Bool :=
  let snippet := jsTrim code
  if snippet = "" then false
  else if !(startsWithChar snippet '{' || startsWithChar snippet '[') then false
  else jsonParses snippet

/-- Boundary test for the regex `\b` before a keyword whose first character
is a word character: the previous character is absent or not a word
character. -/
def boundaryBefore : Option Char → Bool
  | none => true
  | some c => !isWordChar c

/-- A keyword match followed by a `\b`: the keyword is a prefix and the
following character, if any, is not a word character. -/
def startsWithKeyword (kw : String) (l : List Char) : Bool :=
  kw.data.isPrefixOf l &&
    (match l.drop kw.data.length with
     | [] => true
     | c :: _ => !isWordChar c)

/-- The SQL verb alternatives of `/^(with|select|...)\b/i`. -/
def sqlStartKeywords : List String :=
  ["with", "select", "insert", "update", "delete", "create", "alter", "drop",
   "truncate", "merge"]

/-- The one-word clause alternatives of the core-clause regex. -/
def sqlSimpleClauses : List String :=
  ["from", "where", "join", "having", "limit", "values", "set", "into"]

/-- Consume one or more whitespace characters (`\s+`), maximally. -/
def matchWsPlus : List Char → Option (List Char)
  | c :: rest =>
    if jsWhitespaceChar c then some (rest.dropWhile jsWhitespaceChar) else none
  | [] => none

/-- Match a literal keyword prefix. -/
def matchLit (kw : String) (l : List Char) : Option (List Char) :=
  if kw.data.isPrefixOf l then some (l.drop kw.data.length) else none

/-- Match `w1\s+w2\b` at the head of the input (for `group\s+by` and
`order\s+by`). -/
def matchTwoWordClause (w1 w2 : String) (l : List Char) : Bool :=
  match matchLit w1 l with
  | some r1 =>
    match matchWsPlus r1 with
    | some r2 => startsWithKeyword w2 r2
    | none => false
  | none => false

/-- A core clause keyword beginning at the head of the input. -/
def sqlClauseHere (l : List Char) : Bool :=
  (sqlSimpleClauses.any fun kw => startsWithKeyword kw l) ||
    matchTwoWordClause "group" "by" l || matchTwoWordClause "order" "by" l

/-- Scan all positions for `\b(from|where|...|group\s+by|order\s+by)\b`,
tracking the previous character for the leading word boundary. -/
def sqlClauseScan : Option Char → List Char → Bool
  | prev, [] => boundaryBefore prev && sqlClauseHere []
  | prev, c :: rest =>
    (boundaryBefore prev && sqlClauseHere (c :: rest)) || sqlClauseScan (some c) rest

/-- `isLikelySqlSnippet` (`codeLowlight.ts` lines 221-232): starts with a
SQL verb and has a core clause keyword or SQL punctuation.  Case
insensitivity is modelled by scanning the lowercased snippet. -/
def isLikelySqlSnippet (code : String) : Bool :=
  let snippet := jsTrim code
  if snippet = "" then false
  else
    let lower := (jsLower snippet).data
    let startsLikeSql := sqlStartKeywords.any fun kw => startsWithKeyword kw lower
    if !startsLikeSql then false
    else
      let hasCoreClauses := sqlClauseScan none lower
      let hasSqlPunctuation := snippet.data.any fun c => c = ';' || c = '*'
      hasCoreClauses || hasSqlPunctuation

/-- Characters of the class `[a-z0-9_.]` (scanned on the lowercased
snippet, which also covers the `/i` flag). -/
def isPackageChar (c : Char) : Bool :=
  c.isLower || c.isDigit || c = '_' || c = '.'

/-- Match one or more characters of a class, maximally. -/
def matchClassPlus (p : Char → Bool) : List Char → Option (List Char)
  | c :: rest => if p c then some (rest.dropWhile p) else none
  | [] => none

/-- One alternative of the Java signature regex
`/(System\.out\.println|public\s+class|import\s+java\.|package\s+[a-z0-9_.]+;)/i`
beginning at the head of the (lowercased) input. -/
def javaSignatureHere (l : List Char) : Bool :=
  (matchLit "system.out.println" l).isSome ||
  (match matchLit "public" l with
   | some r1 =>
     match matchWsPlus r1 with
     | some r2 => (matchLit "class" r2).isSome
     | none => false
   | none => false) ||
  (match matchLit "import" l with
   | some r1 =>
     match matchWsPlus r1 with
     | some r2 => (matchLit "java." r2).isSome
     | none => false
   | none => false) ||
  (match matchLit "package" l with
   | some r1 =>
     match matchWsPlus r1 with
     | some r2 =>
       match matchClassPlus isPackageChar r2 with
       | some r3 => (matchLit ";" r3).isSome
       | none => false
     | none => false
   | none => false)

/-- Scan all positions for a Java signature alternative (the regex has no
leading `\b`, so no boundary condition applies). -/
def javaSignatureScan : List Char → Bool
  | [] => javaSignatureHere []
  | c :: rest => javaSignatureHere (c :: rest) || javaSignatureScan rest

/-- The type alternatives of the typed-member regex. -/
def javaTypeKeywords : List String :=
  ["void", "int", "long", "double", "float", "boolean", "String"]

/-- The access modifier alternatives of the typed-member regex. -/
def javaModifiers : List String := ["public", "private", "protected"]

/-- Match `(?:void|int|...)\s+[A-Za-z_]\w*\b` at the head of the input.
The trailing `\w*\b` always succeeds once the first identifier character
matches, because `\w*` is maximal. -/
def matchTypeAndIdent (l : List Char) : Bool :=
  javaTypeKeywords.any fun kw =>
    match matchLit kw l with
    | some r1 =>
      match matchWsPlus r1 with
      | some r2 =>
        match r2 with
        | c :: _ => c.isAlpha || c = '_'
        | [] => false
      | none => false
    | none => false

/-- Match `(?:static\s+)?` then the type and identifier: the optional group
is tried with and without, as the regex engine backtracks. -/
def matchStaticOpt (l : List Char) : Bool :=
  (match matchLit "static" l with
   | some r1 =>
     match matchWsPlus r1 with
     | some r2 => matchTypeAndIdent r2
     | none => false
   | none => false) ||
  matchTypeAndIdent l

/-- Match `\s*` (maximal — every following alternative starts with a
non-whitespace character) then the optional `static` group and the rest. -/
def afterModifier (l : List Char) : Bool :=
  matchStaticOpt (l.dropWhile jsWhitespaceChar)

/-- Match `(?:public|private|protected)?\s*(?:static\s+)?...`, trying the
optional modifier with and without. -/
def matchModifierOpt (l : List Char) : Bool :=
  (javaModifiers.any fun m =>
    match matchLit m l with
    | some r1 => afterModifier r1
    | none => false) ||
  afterModifier l

/-- Whether an optional character is a word character (for the two-sided
`\b` semantics). -/
def wordB : Option Char → Bool
  | some c => isWordChar c
  | none => false

/-- The typed-member pattern with its leading `\b` at one position: a word
boundary between the previous character and the head, then the body. -/
def typedMemberHere (prev : Option Char) (l : List Char) : Bool :=
  (wordB prev != wordB l.head?) && matchModifierOpt l

/-- Scan all positions for the (case-sensitive) typed-member pattern. -/
def typedMemberScan : Option Char → List Char → Bool
  | prev, [] => typedMemberHere prev []
  | prev, c :: rest => typedMemberHere prev (c :: rest) || typedMemberScan (some c) rest

/-- The test `/{[\s\S]*}/`: an opening brace with a closing brace somewhere
after it. -/
def hasCStyleBlocks (l : List Char) : Bool :=
  match l.dropWhile (fun c => !(c = '{')) with
  | _ :: rest => rest.contains '}'
  | [] => false

/-- `isLikelyJavaSnippet` (`codeLowlight.ts` lines 234-243). -/
def isLikelyJavaSnippet (code : String) : Bool :=
  let snippet := jsTrim code
  if snippet = "" then false
  else
    let hasJavaSignature := javaSignatureScan (jsLower snippet).data
    let hasTypedMembers := typedMemberScan none snippet.data
    let hasBlocks := hasCStyleBlocks snippet.data
    hasJavaSignature || (hasTypedMembers && hasBlocks)

/-- The two detection strategies. -/
inductive DetectionStrategy where
  | deterministic
  | relevance
deriving DecidableEq, Repr

/-- `CodeLanguageDetection` (`codeLowlight.ts` lines 189-194). -/
structure CodeLanguageDetection where
  language : Option String
  strategy : DetectionStrategy
  relevance : JsNumber
  secondRelevance : JsNumber
deriving DecidableEq, Repr

/-- `deterministicDetectors` (`codeLowlight.ts` lines 245-249), in priority
order. -/
def deterministicDetectors (jsonParses : String → Bool) :
    List (String × (String → Bool)) :=
  [("json", isStrictJsonSnippet jsonParses), ("sql", isLikelySqlSnippet),
   ("java", isLikelyJavaSnippet)]

/-- `rankLanguagesByRelevance` (`codeLowlight.ts` lines 251-270): score
every registered grammar and sort descending by relevance; JavaScript's
`Array.prototype.sort` is stable, modelled by a stable merge sort. -/
def rankLanguagesByRelevance (highlightRel : String → String → Int)
    (snippet : String) : List (String × Int) :=
  (registeredLanguages.map fun language => (language, highlightRel language snippet)).mergeSort
    fun a b => decide (b.2 ≤ a.2)

/-- `detectCodeLanguageMeta` (`codeLowlight.ts` lines 272-305). -/
def detectCodeLanguageMeta (jsonParses : String → Bool)
    (highlightRel : String → String → Int) (code : String) : CodeLanguageDetection :=
  let snippet := jsTrim code
  if snippet = "" then
    { language := none, strategy := .relevance, relevance := .num 0,
      secondRelevance := .num 0 }
  else
    match (deterministicDetectors jsonParses).find? (fun d => d.2 snippet) with
    | some d =>
      { language := some d.1, strategy := .deterministic, relevance := .posInf,
        secondRelevance := .num 0 }
    | none =>
      let ranked := rankLanguagesByRelevance highlightRel snippet
      let best := ranked.head?
      let second := ranked[1]?
      { language := normalizeCodeLanguage (best.map Prod.fst),
        strategy := .relevance,
        relevance := .num ((best.map Prod.snd).getD 0),
        secondRelevance := .num ((second.map Prod.snd).getD 0) }

/-- `detectCodeLanguage` (`codeLowlight.ts` line 307). -/
def detectCodeLanguage (jsonParses : String → Bool)
    (highlightRel : String → String → Int) (code : String) : Option String :=
  (detectCodeLanguageMeta jsonParses highlightRel code).language

/-- `shouldAutoCorrectLanguage` (`codeLowlight.ts` lines 309-348). -/
def shouldAutoCorrectLanguage (highlightRel : String → String → Int)
    (currentLanguage : String) (code : String) (detection : CodeLanguageDetection)
    (aggressive : Bool) : Bool :=
  match normalizeCodeLanguage (some currentLanguage) with
  | none => false
  | some current =>
    match detection.language with
    | none => false
    | some detected =>
      if current = detected then false
      else if detection.strategy = .deterministic then true
      else if !aggressive && decide ((jsTrim code).data.length < 24) then false
      else
        let currentRelevance := highlightRel current code
        if aggressive then
          detection.relevance.jge (.num 2) &&
            (detection.relevance.jsub (.num currentRelevance)).jge (.num 1)
        else
          let margin := detection.relevance.jsub
            (detection.secondRelevance.jmax (.num currentRelevance))
          detection.relevance.jge (.num 4) && margin.jge (.num 2)

/-- `FormatCodeResult` (`codeFormat.ts` lines 52-57); parser names are kept
as strings. -/
structure FormatCodeResult where
  formatted : String
  language : Option String
  parser : Option String
  error : Option String
deriving DecidableEq, Repr

/-- `parserByLanguage` (`codeFormat.ts` lines 27-38). -/
def parserByLanguage : List (String × String) :=
  [("javascript", "babel"), ("typescript", "typescript"), ("json", "json"),
   ("html", "html"), ("css", "css"), ("scss", "scss"), ("markdown", "markdown"),
   ("yaml", "yaml"), ("java", "java"), ("sql", "sql")]

/-- The effective-language resolution of `formatCodeSnippet`
(`codeFormat.ts` lines 63-69): force `json` when the source is strict JSON
and the preferred language is JSON-compatible, else the preferred language,
else the detected one. -/
def resolveFormatLanguage (jsonParses : String → Bool)
    (highlightRel : String → String → Int)
    (source : String) (preferredLanguage : Option String) : Option String :=
  let sourceIsStrictJson := isStrictJsonSnippet jsonParses source
  let normalizedPreferred := normalizeCodeLanguage preferredLanguage
  let detectedLanguage := detectCodeLanguage jsonParses highlightRel source
  let preferredIsJsonCompatible :=
    normalizedPreferred == some "json" || normalizedPreferred == some "javascript" ||
      normalizedPreferred == some "typescript"
  if sourceIsStrictJson && preferredIsJsonCompatible then some "json"
  else normalizedPreferred.or detectedLanguage

/-- The parser lookup of `formatCodeSnippet` (`codeFormat.ts` line 70). -/
def resolveFormatParser (jsonParses : String → Bool)
    (highlightRel : String → String → Int)
    (source : String) (preferredLanguage : Option String) : Option String :=
  match resolveFormatLanguage jsonParses highlightRel source preferredLanguage with
  | none => none
  | some lang => parserByLanguage.lookup lang

/-- `formatCodeSnippet` (`codeFormat.ts` lines 59-131), with the two
formatting backends as `Except`-valued parameters standing for their
try-catch behaviour. -/
def formatCodeSnippet (jsonParses : String → Bool)
    (highlightRel : String → String → Int)
    (prettierFormat : String → String → Except String String)
    (sqlFormat : String → Except String String)
    (source : String) (preferredLanguage : Option String) : FormatCodeResult :=
  let language := resolveFormatLanguage jsonParses highlightRel source preferredLanguage
  match resolveFormatParser jsonParses highlightRel source preferredLanguage with
  | none =>
    { formatted := source, language := language, parser := none,
      error := some "No formatter available for this language yet." }
  | some p =>
    if p = "sql" then
      match sqlFormat source with
      | .ok formatted =>
        { formatted := formatted, language := language, parser := some p, error := none }
      | .error msg =>
        { formatted := source, language := language, parser := some p, error := some msg }
    else
      match prettierFormat p source with
      | .ok formatted =>
        { formatted := formatted, language := language, parser := some p, error := none }
      | .error msg =>
        { formatted := source, language := language, parser := some p, error := some msg }


/-- A deterministic-strategy detection of `json`, as produced by the
deterministic detectors. -/
def detectionJsonDeterministic : CodeLanguageDetection :=
  { language := some "json", strategy := .deterministic, relevance := .posInf,
    secondRelevance := .num 0 }

/-- C5 (counterexample): with `aggressive = false` and a snippet of
trimmed length `10 < 24`, `shouldAutoCorrect` does NOT return `false` for
every detection: a deterministic-strategy detection short-circuits before
the short-snippet guard and returns `true`. -/
theorem claim_C5_counterexample :
    ((jsTrim "0123456789").data.length = 10 ∧
      (jsTrim "0123456789").data.length < 24) ∧
    shouldAutoCorrectLanguage (fun _ _ => 0) "sql" "0123456789"
      detectionJsonDeterministic false = true := by
  decide

/-- C5 (amended): for `aggressive = false`, a snippet of trimmed length
below 24 characters and a detection whose strategy is `relevance`,
`shouldAutoCorrect` returns `false` for every current language, relevance
engine and relevance scores (the short-snippet guard; deterministic
detections are exempt from it). -/
theorem claim_C5_short_snippet_guard (highlightRel : String → String → Int)
    (currentLanguage code : String) (detection : CodeLanguageDetection)
    (hstrat : detection.strategy = DetectionStrategy.relevance)
    (hlen : (jsTrim code).data.length < 24) :
    shouldAutoCorrectLanguage highlightRel currentLanguage code detection false = false := by
  simp only [shouldAutoCorrectLanguage]
  cases hn : normalizeCodeLanguage (some currentLanguage) with
  | none => rfl
  | some current =>
    cases hd : detection.language with
    | none => rfl
    | some detected =>
      simp only
      by_cases he : current = detected
      · rw [if_pos he]
      · rw [if_neg he, hstrat]
        rw [if_neg (by simp)]
        simp only [Bool.not_false, Bool.true_and]
        rw [if_pos (decide_eq_true hlen)]

/-- C5 (witness): the guard applied at a concrete relevance-strategy
detection with high scores on a ten-character snippet. -/
theorem claim_C5_short_snippet_guard_witness :
    shouldAutoCorrectLanguage (fun _ _ => 0) "sql" "0123456789"
      { language := some "json", strategy := DetectionStrategy.relevance,
        relevance := JsNumber.num 100, secondRelevance := JsNumber.num 0 } false = false :=
  claim_C5_short_snippet_guard (fun _ _ => 0) "sql" "0123456789"
    { language := some "json", strategy := DetectionStrategy.relevance,
      relevance := JsNumber.num 100, secondRelevance := JsNumber.num 0 }
    rfl (by decide)

theorem norm_registered : ∀ l ∈ registeredLanguages,
    normalizeCodeLanguage (some l) = some l := by
  decide

/-- C6: (a) every snippet whose trimmed form starts with a brace or a
bracket and parses as JSON is detected with strategy `deterministic` and
language `json`; (b) for every snippet — non-empty in particular — the
detected language is `none` or a member of the registered grammar set. -/
theorem claim_C6_detect (jsonParses : String → Bool)
    (highlightRel : String → String → Int) :
    (∀ s : String, jsonParses (jsTrim s) = true →
      (startsWithChar (jsTrim s) '{' || startsWithChar (jsTrim s) '[') = true →
      (detectCodeLanguageMeta jsonParses highlightRel s).strategy =
        DetectionStrategy.deterministic ∧
      (detectCodeLanguageMeta jsonParses highlightRel s).language = some "json") ∧
    (∀ s : String, s ≠ "" →
      (detectCodeLanguageMeta jsonParses highlightRel s).language = none ∨
      ∃ l, (detectCodeLanguageMeta jsonParses highlightRel s).language = some l ∧
        l ∈ registeredLanguages) := by
  constructor
  · intro s hjson hstart
    have hne : jsTrim s ≠ "" := by
      intro he
      rw [he] at hstart
      simp [startsWithChar] at hstart
    have hjsonTest : isStrictJsonSnippet jsonParses (jsTrim s) = true := by
      simp only [isStrictJsonSnippet, jsTrim_idem]
      rw [if_neg hne, hstart]
      simpa using hjson
    have hfind : (deterministicDetectors jsonParses).find?
        (fun d => d.2 (jsTrim s)) = some ("json", isStrictJsonSnippet jsonParses) := by
      simp only [deterministicDetectors]
      exact List.find?_cons_of_pos _ hjsonTest
    simp only [detectCodeLanguageMeta]
    rw [if_neg hne, hfind]
    exact ⟨rfl, rfl⟩
  · intro s hs
    by_cases he : jsTrim s = ""
    · left
      simp only [detectCodeLanguageMeta]
      rw [if_pos he]
    · cases hf : (deterministicDetectors jsonParses).find? (fun d => d.2 (jsTrim s)) with
      | some d =>
        right
        refine ⟨d.1, ?_, ?_⟩
        · simp only [detectCodeLanguageMeta]
          rw [if_neg he, hf]
        · have hmem := List.mem_of_find?_eq_some hf
          simp only [deterministicDetectors, List.mem_cons,
            List.not_mem_nil, or_false] at hmem
          rcases hmem with h | h | h
          · rw [h]
            show ("json" : String) ∈ registeredLanguages
            decide
          · rw [h]
            show ("sql" : String) ∈ registeredLanguages
            decide
          · rw [h]
            show ("java" : String) ∈ registeredLanguages
            decide
      | none =>
        right
        have hperm := List.mergeSort_perm
          (registeredLanguages.map fun language =>
            (language, highlightRel language (jsTrim s)))
          (fun a b => decide (b.2 ≤ a.2))
        have hlen2 : (rankLanguagesByRelevance highlightRel (jsTrim s)).length =
            registeredLanguages.length := by
          simp only [rankLanguagesByRelevance]
          rw [hperm.length_eq, List.length_map]
        cases hr : rankLanguagesByRelevance highlightRel (jsTrim s) with
        | nil =>
          rw [hr] at hlen2
          simp [registeredLanguages] at hlen2
        | cons b rest =>
          have hbmem : b ∈ rankLanguagesByRelevance highlightRel (jsTrim s) := by
            rw [hr]
            exact List.mem_cons_self _ _
          have hbreg : b.1 ∈ registeredLanguages := by
            have hmem2 : b ∈ registeredLanguages.map fun language =>
                (language, highlightRel language (jsTrim s)) := by
              have := hperm.mem_iff (a := b)
              simp only [rankLanguagesByRelevance] at hbmem
              exact this.mp hbmem
            rcases List.mem_map.mp hmem2 with ⟨lang, hlangmem, hpair⟩
            rw [← hpair]
            exact hlangmem
          refine ⟨b.1, ?_, hbreg⟩
          simp only [detectCodeLanguageMeta]
          rw [if_neg he, hf, hr]
          simp only [List.head?, Option.map_some]
          exact norm_registered b.1 hbreg

/-- C6 (witness): the detection applied to the snippet `"[1]"` under an
oracle that accepts it as JSON. -/
theorem claim_C6_detect_witness :
    ((detectCodeLanguageMeta (fun _ => true) (fun _ _ => 0) "[1]").strategy =
        DetectionStrategy.deterministic ∧
      (detectCodeLanguageMeta (fun _ => true) (fun _ _ => 0) "[1]").language =
        some "json") ∧
    ((detectCodeLanguageMeta (fun _ => true) (fun _ _ => 0) "[1]").language = none ∨
      ∃ l, (detectCodeLanguageMeta (fun _ => true) (fun _ _ => 0) "[1]").language =
          some l ∧ l ∈ registeredLanguages) :=
  ⟨(claim_C6_detect (fun _ => true) (fun _ _ => 0)).1 "[1]" rfl rfl,
    (claim_C6_detect (fun _ => true) (fun _ _ => 0)).2 "[1]" (by decide)⟩

/-- C7: the formatter adapter never throws and (a) yields the unchanged
source with the informational message when the resolved language has no
formatter; (b) yields the unchanged source and the thrown message when the
chosen backend fails; (c) in every case the error is absent or the source
is returned unchanged. -/
theorem claim_C7_format (jsonParses : String → Bool)
    (highlightRel : String → String → Int)
    (prettierFormat : String → String → Except String String)
    (sqlFormat : String → Except String String)
    (source : String) (preferredLanguage : Option String) :
    ((formatCodeSnippet jsonParses highlightRel prettierFormat sqlFormat source
        preferredLanguage).parser = none →
      (formatCodeSnippet jsonParses highlightRel prettierFormat sqlFormat source
        preferredLanguage).formatted = source ∧
      (formatCodeSnippet jsonParses highlightRel prettierFormat sqlFormat source
        preferredLanguage).error = some "No formatter available for this language yet.") ∧
    (∀ msg, (formatCodeSnippet jsonParses highlightRel prettierFormat sqlFormat source
        preferredLanguage).parser = some "sql" → sqlFormat source = .error msg →
      (formatCodeSnippet jsonParses highlightRel prettierFormat sqlFormat source
        preferredLanguage).formatted = source ∧
      (formatCodeSnippet jsonParses highlightRel prettierFormat sqlFormat source
        preferredLanguage).error = some msg) ∧
    (∀ p msg, (formatCodeSnippet jsonParses highlightRel prettierFormat sqlFormat source
        preferredLanguage).parser = some p → p ≠ "sql" →
      prettierFormat p source = .error msg →
      (formatCodeSnippet jsonParses highlightRel prettierFormat sqlFormat source
        preferredLanguage).formatted = source ∧
      (formatCodeSnippet jsonParses highlightRel prettierFormat sqlFormat source
        preferredLanguage).error = some msg) ∧
    ((formatCodeSnippet jsonParses highlightRel prettierFormat sqlFormat source
        preferredLanguage).error = none ∨
      (formatCodeSnippet jsonParses highlightRel prettierFormat sqlFormat source
        preferredLanguage).formatted = source) := by
  rcases hpar : resolveFormatParser jsonParses highlightRel source preferredLanguage
    with _ | p
  · simp [formatCodeSnippet, hpar]
  · by_cases hsql : p = "sql"
    · subst hsql
      rcases hout : sqlFormat source with f | msg
      · simp only [formatCodeSnippet, hpar, hout]
        simp
        intro q msg h1 h2
        exact absurd h1.symm h2
      · simp only [formatCodeSnippet, hpar, hout]
        simp
        intro q msg2 h1 h2
        exact absurd h1.symm h2
    · rcases hout : prettierFormat p source with f | msg
      · simp only [formatCodeSnippet, hpar, hout]
        simp [hsql]
        intro q msg2 h1 h2 h3
        rw [← h1, hout] at h3
        injection h3
      · simp only [formatCodeSnippet, hpar, hout]
        simp [hsql]
        intro q msg2 h1 h2 h3
        rw [← h1, hout] at h3
        exact Except.noConfusion h3

/-- C7 (witness): the adapter at preferred language `go`, which is
registered but has no formatter: the source passes through with the
informational message. -/
theorem claim_C7_format_witness :
    (formatCodeSnippet (fun _ => false) (fun _ _ => 0) (fun _ s => .ok s)
        (fun s => .ok s) "x" (some "go")).formatted = "x" ∧
    (formatCodeSnippet (fun _ => false) (fun _ _ => 0) (fun _ s => .ok s)
        (fun s => .ok s) "x" (some "go")).error =
      some "No formatter available for this language yet." :=
  (claim_C7_format (fun _ => false) (fun _ _ => 0) (fun _ s => .ok s)
    (fun s => .ok s) "x" (some "go")).1 rfl

/-! ## Abbreviation expansion (`AbbrevExpand`)

`apply` parses the trimmed line text against the fixed, ordered pattern set
(`todo`, `ul`, `ol`, `h1..h6`, `hr`; all case-insensitive) and says what
block is inserted.  The trigger reads the current line up to the cursor:
on a match the key is consumed, the matched line text is deleted and the
expansion is inserted in its place; on no match it returns `false` and the
key's default behaviour proceeds.  The model records that net effect.
-/

/-- The structured block inserted by an abbreviation expansion. -/
inductive AbbrevExpansion where
  | taskList (items : Nat)
  | bulletList (items : Nat)
  | orderedList (items : Nat)
  | heading (level : Nat) (text : String)
  | horizontalRule
deriving DecidableEq, Repr

/-- JavaScript `Number` on a non-empty digit string. -/
def digitsToNat (l : List Char) : Nat :=
  l.foldl (fun acc c => acc * 10 + (c.toNat - 48)) 0

/-- The regex `/^todo(?:>(\d+))?$/i` on the lowercased trimmed line:
`todo` alone yields one item, `todo>N` yields `N`. -/
def matchTodo (lower : List Char) : Option Nat :=
  if lower = "todo".data then some 1
  else if "todo>".data.isPrefixOf lower then
    let rest := lower.drop 5
    if rest ≠ [] ∧ rest.all Char.isDigit then some (digitsToNat rest) else none
  else none

/-- The regex `/^ul(?:>li(?:\*(\d+))?)?$/i` (and its `ol` twin via the
`head` parameter, both two characters long). -/
def matchListAbbrev (head : String) (lower : List Char) : Option Nat :=
  if lower = head.data then some 1
  else if lower = (head ++ ">li").data then some 1
  else if (head ++ ">li*").data.isPrefixOf lower then
    let rest := lower.drop 6
    if rest ≠ [] ∧ rest.all Char.isDigit then some (digitsToNat rest) else none
  else none

/-- The regex `/^h([1-6])\.?(.*)$/i` on the trimmed line (original case:
only the `h` is case-folded, the captured text is preserved), followed by
the source's `(mH[2] || '').trim()`. -/
def matchHeading (l : List Char) : Option (Nat × String) :=
  match l with
  | c0 :: c1 :: rest =>
    if (c0 = 'h' ∨ c0 = 'H') ∧ '1' ≤ c1 ∧ c1 ≤ '6' then
      let rest2 := match rest with
        | '.' :: r => r
        | r => r
      some (c1.toNat - 48, jsTrim ⟨rest2⟩)
    else none
  | _ => none

/-- `apply` (AbbrevExpand, lines 4-60): try the patterns in order and
return the block to insert, or `none`. -/
def abbrevApply (exp : String) : Option AbbrevExpansion :=
  let s := jsTrim exp
  let lower := (jsLower s).data
  match matchTodo lower with
  | some n => some (.taskList n)
  | none =>
    match matchListAbbrev "ul" lower with
    | some n => some (.bulletList n)
    | none =>
      match matchListAbbrev "ol" lower with
      | some n => some (.orderedList n)
      | none =>
        match matchHeading s.data with
        | some hl => some (.heading hl.1 hl.2)
        | none => if lower = "hr".data then some .horizontalRule else none

/-- The observable result of the trigger key: whether the key was consumed,
the line text afterwards, and the inserted block if any. -/
structure AbbrevTriggerResult where
  consumed : Bool
  lineText : String
  inserted : Option AbbrevExpansion
deriving DecidableEq, Repr

/-- The `Tab` / `Mod-e` trigger (AbbrevExpand, lines 64-76): on a match,
`apply` inserts the block, the handler deletes the line text from line
start to cursor and returns `true` (consuming the key); on no match it
returns `false` and changes nothing. -/
def abbrevTrigger (lineText : String) : AbbrevTriggerResult :=
  match abbrevApply lineText with
  | some e => { consumed := true, lineText := "", inserted := some e }
  | none => { consumed := false, lineText := lineText, inserted := none }

/-- C9: typing `h2 Meeting Notes` and pressing the trigger key consumes the
key, deletes the line and leaves a level-2 heading with text exactly
`Meeting Notes`; the match is case-insensitive; and whenever no pattern
matches, the trigger reports `false` and leaves the line unchanged so the
key's default behaviour proceeds. -/
theorem claim_C9_abbrev_trigger :
    abbrevTrigger "h2 Meeting Notes" =
      { consumed := true, lineText := "",
        inserted := some (.heading 2 "Meeting Notes") } ∧
    abbrevTrigger "H2 Meeting Notes" =
      { consumed := true, lineText := "",
        inserted := some (.heading 2 "Meeting Notes") } ∧
    (∀ s : String, abbrevApply s = none →
      abbrevTrigger s = { consumed := false, lineText := s, inserted := none }) := by
  refine ⟨by decide, by decide, ?_⟩
  intro s h
  simp [abbrevTrigger, h]

/-- C9 (witness): the no-match clause applied to the line `hello`. -/
theorem claim_C9_abbrev_trigger_witness :
    abbrevTrigger "hello" =
      { consumed := false, lineText := "hello", inserted := none } :=
  claim_C9_abbrev_trigger.2.2 "hello" rfl

/-! ## The TagChip input rule (`TagChip.ts` lines 159-183)

A paragraph's inline content is a sequence of text characters and tag
chips, with ProseMirror positions: a character occupies one position, a
chip `nodeSize` is its text length plus two (an opening and a closing
token).  Position `p` relative to an item's start is before the item when
`p = 0`, strictly inside a chip (at content offset `p - 1`) when
`0 < p < nodeSize`, and past the item otherwise.  A text insertion at a
position strictly inside a chip is placed into the chip's content: the
resolved position's parent is the chip, whose `text*` content admits the
text, so ProseMirror's `replaceStep` fits it there; at a boundary position
the text joins the paragraph.

The tiptap input-rule plugin runs on `handleTextInput` before the typed
character is inserted: it matches the rule against the text before the
cursor plus the typed character, passes
`range.from = cursor - (match.length - typed.length)` and
`range.to = cursor`, and lets the handler queue steps on the state's
transaction.  The runner then inspects the handler's return value: a
handler that returns `null` cancels the rule — the queued transaction is
discarded, nothing is dispatched, the input counts as unhandled and the
typed character is inserted as ordinary text; otherwise the queued
transaction becomes the new document and the typed character is consumed
by the rule.
-/

/-- An inline item of a paragraph: a text character or a tag chip. -/
inductive Inline where
  | ch (c : Char)
  | chip (color : String) (text : List Char)
deriving DecidableEq, Repr

/-- ProseMirror `nodeSize` of an inline item. -/
def Inline.nodeSize : Inline → Nat
  | .ch _ => 1
  | .chip _ text => text.length + 2

/-- Drop whole items covering the first `n` positions (used on ranges that
end on an item boundary, as the input rule's replaced character range
does). -/
def dropPositions : List Inline → Nat → List Inline
  | items, 0 => items
  | [], _ => []
  | it :: rest, n => dropPositions rest (n - it.nodeSize)

/-- `tr.replaceWith(from, to, node)` for a range that starts and ends on
item boundaries: the items covering `[from, to)` are replaced by the
node. -/
def replaceRange : List Inline → Nat → Nat → Inline → List Inline
  | items, 0, t, node => node :: dropPositions items t
  | [], _, _, node => [node]
  | it :: rest, f, t, node => it :: replaceRange rest (f - it.nodeSize) (t - it.nodeSize) node

/-- Insert a character into a character list at an offset. -/
def insertAtList (text : List Char) (off : Nat) (c : Char) : List Char :=
  text.take off ++ c :: text.drop off

/-- `tr.insertText(c, pos)` under the position semantics above: at an item
boundary the character joins the paragraph; strictly inside a chip it
becomes part of the chip's text at content offset `pos - 1`. -/
def insertCharAt : List Inline → Nat → Char → List Inline
  | [], _, c => [.ch c]
  | it :: rest, pos, c =>
    if pos = 0 then .ch c :: it :: rest
    else
      match it with
      | .ch d => .ch d :: insertCharAt rest (pos - 1) c
      | .chip color text =>
        if pos < text.length + 2 then
          .chip color (insertAtList text (pos - 1) c) :: rest
        else
          .chip color text :: insertCharAt rest (pos - (text.length + 2)) c

/-- The match of `/(?:^|\s)#(\w+)\s$/` against the line text followed by
a just-typed whitespace character: the word is the maximal word-character
suffix of the line, preceded by `#`, preceded by the line start or a
whitespace character.  Returns `range.from` (the match start in the
document), whether the full match starts with a plain space (the source's
`fullMatch.startsWith(' ')`), and the captured word. -/
def tagChipMatch (line : List Char) : Option (Nat × Bool × List Char) :=
  let rev := line.reverse
  let wrev := rev.takeWhile isWordChar
  if wrev = [] then none
  else
    match rev.drop wrev.length with
    | '#' :: before =>
      match before with
      | [] => some (line.length - (wrev.length + 1), false, wrev.reverse)
      | b :: _ =>
        if jsWhitespaceChar b then
          some (line.length - (wrev.length + 2), b = ' ', wrev.reverse)
        else none
    | _ => none

/-- The input-rule handler body (`TagChip.ts` lines 163-179) on a
paragraph holding the line text, fired by typing a whitespace character at
the line end: compute `start` (skipping a leading plain space of the
match), queue `tr.replaceWith(start, end, chip)` with a blue chip holding
the tag text, queue `tr.insertText(' ', start + 1)`, then `return null`
(line 179).  The first component is the paragraph the queued transaction
would build if it were dispatched; the second is the handler's return
value, with `none` modelling the JavaScript `null`. -/
def tagChipRuleHandler (line : List Char) (m : Nat × Bool × List Char) :
    List Inline × Option Unit :=
  let rangeFrom := m.1
  let hasLeadingSpace := m.2.1
  let tagText := m.2.2
  let rangeTo := line.length
  let para := line.map Inline.ch
  let start := if hasLeadingSpace then rangeFrom + 1 else rangeFrom
  let d1 := replaceRange para start rangeTo (.chip "blue" tagText)
  (insertCharAt d1 (start + 1) ' ', none)

/-- The paragraph content after typing `typed` at the end of a paragraph
holding `line`, under tiptap's input-rule runner: if the typed character
is whitespace and `/(?:^|\s)#(\w+)\s$/` matches, the rule fires and the
handler runs against the queued transaction; because the handler returns
`null`, the runner discards the queued transaction and the typed character
is inserted as ordinary text.  When the rule does not fire the typed
character is likewise inserted as ordinary text. -/
def tagChipKeystrokeOutcome (line : List Char) (typed : Char) : List Inline :=
  if jsWhitespaceChar typed then
    match tagChipMatch line with
    | some m =>
      match (tagChipRuleHandler line m).2 with
      | none => line.map Inline.ch ++ [Inline.ch typed]
      | some _ => (tagChipRuleHandler line m).1
    | none => line.map Inline.ch ++ [Inline.ch typed]
  else
    line.map Inline.ch ++ [Inline.ch typed]

/-- Whether a paragraph contains any tag-chip node. -/
def containsChipItem (items : List Inline) : Bool :=
  items.any fun it =>
    match it with
    | .chip _ _ => true
    | .ch _ => false

/-- C8 (divergence witness): typing `#word` and a space matches the rule's
regex, the handler queues the chip replacement and returns `null`, and the
runner therefore discards the queued transaction: the resulting paragraph
is the plain text `#word ` with no chip node at all — no blue chip with
inner text `word` and no trailing space after a chip, contradicting the
claim (and the handler's own comments, which describe creating the chip
and a continuation space). -/
theorem claim_C8_tagchip_input_rule :
    tagChipMatch "#word".data = some (0, false, "word".data) ∧
    (tagChipRuleHandler "#word".data (0, false, "word".data)).2 = none ∧
    tagChipKeystrokeOutcome "#word".data ' ' = "#word ".data.map Inline.ch ∧
    containsChipItem (tagChipKeystrokeOutcome "#word".data ' ') = false ∧
    tagChipKeystrokeOutcome "#word".data ' ' ≠
      [Inline.chip "blue" "word".data, Inline.ch ' '] := by
  decide

end Tulis
